import Mathlib

/-!
# Percent-encoding and wire parsing of the HTTP gateway (`src/util.c`, `src/http.c`)

A shallow embedding of the C code.

* A byte is a `Nat` below 256.
* A pointer into memory is the list of the bytes found from that address on.
  A C string is the prefix of that list before its first zero byte; reading at
  the end of the list reads a zero byte.
* A function that stores through a `char *dst` takes the memory at `dst` and
  returns it as it is after the call.
* `size_t` values are natural numbers: every size here is bounded by the length
  of an object held in memory.
-/

namespace Http

/-! ## C strings -/

/-- The C string held by memory `p`: the bytes before the first zero byte. -/
def c_str (p : List Nat) : List Nat := p.takeWhile (fun b => b ≠ 0)

/-- Model of `strlen`. -/
def strlen (p : List Nat) : Nat := (c_str p).length

/-- Model of `*p`: the byte under the pointer, zero at the end of the list. -/
def peek (p : List Nat) : Nat := p.headD 0

/-! ## `src/util.c` -/

/-- Model of `is_char_needs_encoding`: false exactly on `a-z`, `A-Z`, `0-9`, `-`, `_`,
`.` and `~`. -/
def is_char_needs_encoding (c : Nat) : Bool :=
  !((97 ≤ c && c ≤ 122) || (65 ≤ c && c ≤ 90) || (48 ≤ c && c ≤ 57) ||
    c == 45 || c == 95 || c == 46 || c == 126)

/-- One uppercase hexadecimal digit, as `%X` prints it. -/
def hex_digit_upper (d : Nat) : Nat := if d < 10 then 48 + d else 55 + d

/-- Model of `urlencode_char`: `sprintf(output, "%%%02X", c)` stores `%`, the two
uppercase hexadecimal digits of `c`, and a terminating zero byte: four bytes. -/
def urlencode_char (c : Nat) (output : List Nat) : List Nat :=
  (((output.set 0 37).set 1 (hex_digit_upper (c / 16))).set 2 (hex_digit_upper (c % 16))).set 3 0

/-- The value of a `char` holding byte `b` after promotion to `int`; `signedChar` says
whether plain `char` is signed on the platform. -/
def char_val (signedChar : Bool) (b : Nat) : Int :=
  if signedChar && decide (128 ≤ b) then (b : Int) - 256 else (b : Int)

/-- One operand of `hex_to_char`: `c >= 'A' ? (c & 0xDF) - 'A' + 10 : c - '0'`. -/
def hex_nibble (c : Int) : Int :=
  if 65 ≤ c then ((c.toNat &&& 0xDF : Nat) : Int) - 65 + 10 else c - 48

/-- The 32-bit two's complement pattern of an `int`. -/
def to_u32 (x : Int) : Nat := (x % 4294967296).toNat

/-- Model of `hex_to_char`: `(nibble(high) << 4) | nibble(low)`, converted to `unsigned char`. -/
def hex_to_char (signedChar : Bool) (high low : Nat) : Nat :=
  (to_u32 (hex_nibble (char_val signedChar high) * 16) |||
    to_u32 (hex_nibble (char_val signedChar low))) % 256

/-- Model of `calculate_encoded_size`. -/
def calculate_encoded_size : List Nat → Nat
  | [] => 0
  | c :: src =>
    if c ≠ 0 then (if is_char_needs_encoding c then 3 else 1) + calculate_encoded_size src
    else 0

/-- Model of `urlencode(src, dst, dst_max_len)`: the memory at `dst` after the call. -/
def urlencode : List Nat → List Nat → Nat → List Nat
  | [], dst, _ => dst.set 0 0
  | c :: src, dst, dst_max_len =>
    if c ≠ 0 ∧ 1 < dst_max_len then
      if is_char_needs_encoding c then
        if dst_max_len < 4 then dst.set 0 0
        else
          let d := urlencode_char c dst
          d.take 3 ++ urlencode src (d.drop 3) (dst_max_len - 3)
      else
        let d := dst.set 0 c
        d.take 1 ++ urlencode src (d.drop 1) (dst_max_len - 1)
    else dst.set 0 0

/-- The loop of `urldecode`; `fuel` bounds the number of iterations. -/
def urldecode_loop (signedChar : Bool) : Nat → List Nat → List Nat → Nat → List Nat
  | 0, _, dst, _ => dst.set 0 0
  | fuel + 1, src, dst, dst_max_len =>
    if peek src ≠ 0 ∧ 1 < dst_max_len then
      if peek src = 37 ∧ peek (src.drop 1) ≠ 0 ∧ peek (src.drop 2) ≠ 0 then
        let d := dst.set 0 (hex_to_char signedChar (peek (src.drop 1)) (peek (src.drop 2)))
        d.take 1 ++ urldecode_loop signedChar fuel (src.drop 3) (d.drop 1) (dst_max_len - 1)
      else
        let d := dst.set 0 (if peek src = 43 then 32 else peek src)
        d.take 1 ++ urldecode_loop signedChar fuel (src.drop 1) (d.drop 1) (dst_max_len - 1)
    else dst.set 0 0

/-- Model of `urldecode(src, dst, dst_max_len)`: the memory at `dst` after the call.
Every iteration consumes a byte of `src`, so `src.length + 1` iterations are enough. -/
def urldecode (signedChar : Bool) (src dst : List Nat) (dst_max_len : Nat) : List Nat :=
  urldecode_loop signedChar (src.length + 1) src dst dst_max_len

/-! ## `src/http.c`: values of the scripting engine

Strings of the engine are taken as the byte strings `JS_ToCString` and `JS_NewString`
convert them to and from. An object is seen through `JS_GetOwnPropertyNames` and
`JS_GetProperty`: its own enumerable string-keyed properties, in enumeration order. -/

/-- The values of the engine, as far as the type tests of this code tell them apart. An
object or a function is named by its reference; numbers are the integers. -/
inductive JSValue where
  | undefined
  | number (n : Int)
  | string (s : List Nat)
  | object (ref : Nat)
  | function (ref : Nat)
  deriving DecidableEq, Repr

/-- The exceptions this code throws. -/
inductive JSException where
  | TypeError (msg : String)
  | InternalError (msg : String)
  | OutOfMemory
  deriving DecidableEq, Repr

deriving instance DecidableEq for Except

/-- An object: its properties in enumeration order. -/
abbrev JSObject := List (List Nat × JSValue)

/-- Model of `JS_DefinePropertyValueStr(ctx, obj, name, val, JS_PROP_C_W_E)`: a property of
that name takes the new value where it stands, a new name is added at the end. -/
def JS_DefinePropertyValueStr (obj : JSObject) (name : List Nat) (val : JSValue) : JSObject :=
  if obj.any (fun kv => decide (kv.1 = name)) then
    obj.map (fun kv => if kv.1 = name then (name, val) else kv)
  else obj ++ [(name, val)]

/-! ## `src/http.c`: serialising and parsing params and headers -/

/-- Model of `strchr(p, c)`: the offset of the first `c` in the C string at `p`. -/
def strchr : List Nat → Nat → Option Nat
  | [], c => if c = 0 then some 0 else none
  | b :: p, c =>
    if b = c then some 0
    else if b = 0 then none
    else (strchr p c).map (fun i => i + 1)

/-- Model of `strcat(dst, src)` on the string held by `dst`. -/
def strcat (dst src : List Nat) : List Nat := dst ++ c_str src

/-- Model of `js_malloc`: a block the allocator does not initialise. `block` gives the byte
found at each offset from the start of the block, `span` is how many bytes from that start
are followed. -/
def js_malloc (block : Nat → Nat) (span : Nat) : List Nat := (List.range span).map block

/-- The loop of `params_helper` over the property table `tab`. `heap k` is the content
found in the block of the `k`-th `js_malloc` of the call, `i` counts the iterations done,
`cnt` and `params_str` are the variables of that name. The key is encoded at
`str_buf1 + cnt`, as in the source, and the string appended is read at `str_buf1`. -/
def params_helper_loop (heap : Nat → Nat → Nat) :
    JSObject → Nat → Nat → Option (List Nat) → Except JSException (Option (List Nat))
  | [], _, _, params_str => .ok params_str
  | (atom, val) :: tab, i, cnt, params_str =>
    match val with
    | .string s =>
      let key := atom
      let value := s
      let cnt_buf1 := calculate_encoded_size key + 1
      let str_buf1 := js_malloc (heap (2 * i)) (cnt + cnt_buf1)
      let str_buf1 := str_buf1.take cnt ++ urlencode key (str_buf1.drop cnt) cnt_buf1
      let cnt := cnt + cnt_buf1
      let cnt_buf2 := calculate_encoded_size value + 1
      let str_buf2 := urlencode value (js_malloc (heap (2 * i + 1)) cnt_buf2) cnt_buf2
      let cnt := cnt + cnt_buf2
      let grown : Nat × List Nat :=
        match params_str with
        | some old => (cnt + 1, strcat old [38])
        | none => (cnt, [])
      let buf := strcat (strcat (strcat grown.2 str_buf1) [61]) str_buf2
      params_helper_loop heap tab (i + 1) grown.1 (some buf)
    | _ => .error (.TypeError "params\x27s value must be string")

/-- Model of `params_helper(ctx, req, &params_str)`: the string left in `*params_str`, or
the exception thrown. `tab` is the table of the properties of `req->js_fields[0]`. The
buffer of `*params_str` is followed by its string only; the `cnt` bytes asked for hold that
string when the call starts from a null pointer, the case the theorems are about. -/
def params_helper (heap : Nat → Nat → Nat) (tab : JSObject) (params_str : Option (List Nat)) :
    Except JSException (Option (List Nat)) :=
  params_helper_loop heap tab 0 0 params_str

/-- The loop of `params_to_obj`; `p` is the memory from the cursor on, `fuel` bounds the
number of iterations. -/
def params_to_obj_loop : Nat → List Nat → JSObject → JSObject
  | 0, _, obj => obj
  | fuel + 1, p, obj =>
    if peek p = 0 then obj
    else
      match strchr p 61 with
      | none => obj
      | some i =>
        let name := p.take i
        let p := p.drop (i + 1)
        match strchr p 38 with
        | none =>
          let value := c_str p
          let p := p.drop (strlen p)
          params_to_obj_loop fuel p (JS_DefinePropertyValueStr obj name (.string value))
        | some j =>
          let value := p.take j
          let p := p.drop (j + 1)
          params_to_obj_loop fuel p (JS_DefinePropertyValueStr obj name (.string value))

/-- Model of `params_to_obj(ctx, params_str)`: `none` is `JS_UNDEFINED`, returned for a
null pointer. Every iteration consumes a byte, so `length + 1` iterations are enough. -/
def params_to_obj : Option (List Nat) → Option JSObject
  | none => none
  | some params_str => some (params_to_obj_loop (params_str.length + 1) params_str [])

/-- The loop of `headers_helper` over the property table `tab`; `cnt` and `headers_str`
are the variables of that name. -/
def headers_helper_loop :
    JSObject → Nat → Option (List Nat) → Except JSException (Option (List Nat))
  | [], _, headers_str => .ok headers_str
  | (atom, val) :: tab, cnt, headers_str =>
    match val with
    | .string s =>
      let header_name := atom
      let header_value := s
      let cnt := cnt + (strlen header_name + strlen header_value + 5)
      let buf : List Nat :=
        match headers_str with
        | some old => old
        | none => []
      let buf := strcat (strcat (strcat (strcat buf header_name) [58, 32]) header_value) [13, 10]
      headers_helper_loop tab cnt (some buf)
    | _ => .error (.TypeError "Header\x27s value must be a string")

/-- Model of `headers_helper(ctx, req, &headers_str)`: the string left in `*headers_str`,
or the exception thrown. The buffer of `*headers_str` is followed by its string only; the
`cnt` bytes asked for hold that string when the call starts from a null pointer, the case
the theorems are about. -/
def headers_helper (tab : JSObject) (headers_str : Option (List Nat)) :
    Except JSException (Option (List Nat)) :=
  headers_helper_loop tab 0 headers_str

/-- The loop of `headers_to_obj`; `p` is the memory from the cursor on, `fuel` bounds the
number of iterations. After a value the cursor moves two bytes past the `\r` found. -/
def headers_to_obj_loop : Nat → List Nat → JSObject → JSObject
  | 0, _, obj => obj
  | fuel + 1, p, obj =>
    if peek p = 0 then obj
    else
      match strchr p 58 with
      | none => obj
      | some i =>
        let name := p.take i
        let p := p.drop (i + 1)
        let p := p.dropWhile (fun b => b = 32)
        match strchr p 13 with
        | none => obj
        | some j =>
          let value := p.take j
          let p := p.drop (j + 2)
          headers_to_obj_loop fuel p (JS_DefinePropertyValueStr obj name (.string value))

/-- Model of `headers_to_obj(ctx, headers_str)`: `none` is `JS_UNDEFINED`, returned for a
null pointer. -/
def headers_to_obj : Option (List Nat) → Option JSObject
  | none => none
  | some headers_str => some (headers_to_obj_loop (headers_str.length + 1) headers_str [])

/-! ## `src/http.c`: request and response objects -/

/-- The bytes of an ASCII literal of the source. -/
def c_lit (s : String) : List Nat := s.toList.map Char.toNat

/-- The property tables of the objects of the engine, by reference. -/
abbrev JSHeap := Nat → JSObject

/-- Model of `JS_IsUndefined`. -/
def JS_IsUndefined : JSValue → Bool
  | .undefined => true
  | _ => false

/-- Model of `JS_IsString`. -/
def JS_IsString : JSValue → Bool
  | .string _ => true
  | _ => false

/-- Model of `JS_IsNumber`. -/
def JS_IsNumber : JSValue → Bool
  | .number _ => true
  | _ => false

/-- Model of `JS_IsObject`: a function is an object too. -/
def JS_IsObject : JSValue → Bool
  | .object _ => true
  | .function _ => true
  | _ => false

/-- Model of `JS_IsFunction`. -/
def JS_IsFunction : JSValue → Bool
  | .function _ => true
  | _ => false

/-- The value of the property `name` in a property table, `undefined` when there is
none. -/
def get_property (obj : JSObject) (name : List Nat) : JSValue :=
  match obj.find? (fun kv => decide (kv.1 = name)) with
  | some kv => kv.2
  | none => .undefined

/-- The property table of a value: that of its reference for an object or a function, empty
for any other value. -/
def own_properties (heap : JSHeap) : JSValue → JSObject
  | .object r => heap r
  | .function r => heap r
  | _ => []

/-- Model of `JS_GetPropertyStr(ctx, val, prop)` on the own properties of `val`. -/
def JS_GetPropertyStr (heap : JSHeap) (val : JSValue) (prop : List Nat) : JSValue :=
  get_property (own_properties heap val) prop

/-- Model of `JS_ToInt32` on an integer: the value modulo 2^32, in the signed range. -/
def JS_ToInt32 (n : Int) : Int := (n + 2147483648) % 4294967296 - 2147483648

/-- Model of the struct `http_req`: `str_fields[HTTP_REQ_METHOD]`, `str_fields[HTTP_REQ_URI]`
and `str_fields[HTTP_REQ_BODY]` (`none` is a null pointer), then `js_fields[0]` (params) and
`js_fields[1]` (headers). -/
structure http_req where
  method : Option (List Nat)
  uri : Option (List Nat)
  body : Option (List Nat)
  params : JSValue
  headers : JSValue
  deriving DecidableEq, Repr

/-- One round of the first loop of `http_req_set`: `v` is the property of the seed, `field`
the string field before the round; the result is the field after it. -/
def http_req_set_str (v : JSValue) (field : Option (List Nat)) :
    Except JSException (Option (List Nat)) :=
  match v with
  | .undefined => .ok field
  | .string s => .ok (some s)
  | _ => .error (.TypeError "request([val]), val\x27s fields must be string")

/-- One round of the second loop of `http_req_set`. -/
def http_req_set_js (v : JSValue) (field : JSValue) : Except JSException JSValue :=
  if JS_IsUndefined v then .ok field
  else if JS_IsObject v then .ok v
  else .error (.TypeError "request([val]), val\x27s params, headers must be object")

/-- Model of `http_req_set`, with `this_val` a request object whose struct is `req`: the
value returned (`()` for `JS_UNDEFINED`) or the exception thrown, and the struct after the
call. The two loops are unrolled over `http_req_fields`. -/
def http_req_set (heap : JSHeap) (req : http_req) (argv : List JSValue) :
    Except JSException Unit × http_req :=
  match argv with
  | [] => (.error (.TypeError "set([val]), val must be object"), req)
  | val :: _ =>
    if !JS_IsObject val then (.error (.TypeError "set([val]), val must be object"), req)
    else
      match http_req_set_str (JS_GetPropertyStr heap val (c_lit "method")) req.method with
      | .error e => (.error e, req)
      | .ok f0 =>
        let req := { req with method := f0 }
        match http_req_set_str (JS_GetPropertyStr heap val (c_lit "uri")) req.uri with
        | .error e => (.error e, req)
        | .ok f1 =>
          let req := { req with uri := f1 }
          match http_req_set_str (JS_GetPropertyStr heap val (c_lit "body")) req.body with
          | .error e => (.error e, req)
          | .ok f2 =>
            let req := { req with body := f2 }
            match http_req_set_js (JS_GetPropertyStr heap val (c_lit "params")) req.params with
            | .error e => (.error e, req)
            | .ok f3 =>
              let req := { req with params := f3 }
              match http_req_set_js (JS_GetPropertyStr heap val (c_lit "headers"))
                  req.headers with
              | .error e => (.error e, req)
              | .ok f4 => (.ok (), { req with headers := f4 })

/-- Model of the struct `http_res`; `none` is a null pointer. -/
structure http_res where
  status : Int
  reason : Option (List Nat)
  body : Option (List Nat)
  headers : JSValue
  deriving DecidableEq, Repr

/-- Model of `http_res_set`, with `this_val` a response object whose struct is `res`: the
value returned or the exception thrown, and the struct after the call. -/
def http_res_set (heap : JSHeap) (res : http_res) (argv : List JSValue) :
    Except JSException Unit × http_res :=
  match argv with
  | [] => (.error (.TypeError "set([val]), val must be object"), res)
  | val :: _ =>
    if !JS_IsObject val then (.error (.TypeError "set([val]), val must be object"), res)
    else
      let v := JS_GetPropertyStr heap val (c_lit "status")
      let step1 : Except JSException http_res :=
        if !JS_IsUndefined v then
          match v with
          | .number n => .ok { res with status := JS_ToInt32 n }
          | _ => .error (.TypeError "response([val]), val.status must be number")
        else .ok res
      match step1 with
      | .error e => (.error e, res)
      | .ok res =>
        let v := JS_GetPropertyStr heap val (c_lit "reason")
        let step2 : Except JSException http_res :=
          if !JS_IsUndefined v then
            match v with
            | .string s => .ok { res with reason := some s }
            | _ => .error (.TypeError "response([val]), val.reason must be string")
          else .ok res
        match step2 with
        | .error e => (.error e, res)
        | .ok res =>
          let v := JS_GetPropertyStr heap val (c_lit "body")
          let step3 : Except JSException http_res :=
            if !JS_IsUndefined v then
              match v with
              | .string s => .ok { res with body := some s }
              | _ => .error (.TypeError "response([val]), val.body must be string")
            else .ok res
          match step3 with
          | .error e => (.error e, res)
          | .ok res =>
            let v := JS_GetPropertyStr heap val (c_lit "headers")
            if !JS_IsUndefined v then
              if JS_IsObject v then (.ok (), { res with headers := v })
              else (.error (.TypeError "response([val]), val.headers must be object"), res)
            else (.ok (), res)

/-- Model of `http_res_ctor(ctx, new_target, argc, argv)`: the struct of the object
constructed, or the exception thrown. `proto` is the `prototype` property of
`new_target`. -/
def http_res_ctor (heap : JSHeap) (proto : JSValue) (argv : List JSValue) :
    Except JSException http_res :=
  if JS_IsObject proto then
    let res : http_res := { status := 200, reason := none, body := none, headers := .undefined }
    match argv with
    | [] => .ok res
    | val :: _ =>
      if JS_IsObject val then
        match http_res_set heap res argv with
        | (.error e, _) => .error e
        | (.ok _, res) => .ok res
      else .error (.TypeError "response([val]), val must be object")
  else .error (.TypeError "prototype property is not an object")

/-- Model of `http_res_get`, with `this_val` a response object whose struct is `res`: the
property table of the object returned. -/
def http_res_get (res : http_res) : JSObject :=
  let obj := JS_DefinePropertyValueStr [] (c_lit "status") (.number res.status)
  let obj :=
    match res.reason with
    | some reason => JS_DefinePropertyValueStr obj (c_lit "reason") (.string (c_str reason))
    | none => obj
  let obj :=
    match res.body with
    | some body => JS_DefinePropertyValueStr obj (c_lit "body") (.string (c_str body))
    | none => obj
  if !JS_IsUndefined res.headers then
    JS_DefinePropertyValueStr obj (c_lit "headers") res.headers
  else obj

/-! ## `src/http.c`: fetch -/

/-- Model of `js_realloc(ctx, old, size)` on a block of bytes: the bytes of the old block
are kept as far as the new size goes, the others are not initialised and read as `fresh`
gives them. -/
def js_realloc (fresh : Nat → Nat) (old : Option (List Nat)) (size : Nat) : List Nat :=
  (List.range size).map (fun i =>
    match old with
    | some block => block.getD i (fresh i)
    | none => fresh i)

/-- Model of `memcpy(dst, src, n)`: the memory at `dst` after the call. -/
def memcpy (dst src : List Nat) (n : Nat) : List Nat := src.take n ++ dst.drop n

/-- Model of `write_callback(ptr, size, nmemb, data)`, with `data` the struct `res`: the
value returned and the struct after the call. -/
def write_callback (fresh : Nat → Nat) (ptr : List Nat) (size nmemb : Nat) (res : http_res) :
    Nat × http_res :=
  let realsize := size * nmemb
  let body := js_realloc fresh res.body (realsize + 1)
  let body := memcpy body ptr realsize
  let body := body.set realsize 0
  (realsize, { res with body := some body })

/-- The options `http_fetch` sets on the transfer before it is performed. -/
structure CurlOptions where
  url : List Nat
  customrequest : Option (List Nat)
  postfields : Option (List Nat)
  httpheader : Option (List (List Nat))
  deriving DecidableEq, Repr

/-- What the transport does with a transfer: the code `curl_easy_perform` returns (0 is
`CURLE_OK`), the text `curl_easy_strerror` gives for it, the response code, and the body
chunks handed to the write callback in order. -/
structure CurlResult where
  code : Nat
  strerror : String
  response_code : Int
  body_chunks : List (List Nat)
  deriving DecidableEq, Repr

/-- The value found in a pointer local that the source does not initialise: a null pointer,
or a value that is not null and that no allocation returned. -/
inductive Uninit where
  | null
  | wild
  deriving DecidableEq, Repr

/-- The value of a local of type `char *`: a null pointer, a wild value left from a local
that was not initialised, or the string of a block of the allocator. -/
inductive CharPtr where
  | null
  | wild
  | str (s : List Nat)
  deriving DecidableEq, Repr

/-- A local that was not initialised, read as it is. -/
def CharPtr.of_uninit : Uninit → CharPtr
  | .null => .null
  | .wild => .wild

/-- How a run of the code ends: it completes with a result, or it hands a wild pointer to the
allocator or to the transport, after which its behaviour is undefined. -/
inductive Run (α : Type) where
  | done (a : α)
  | undefined
  deriving DecidableEq, Repr

/-- Model of `js_free(ctx, ptr)`: defined on a null pointer and on a block of the allocator. -/
def js_free : CharPtr → Run Unit
  | .wild => .undefined
  | _ => .done ()

/-- Model of `params_helper` entered with a wild pointer in `*params_str`. With no property
the pointer is left as it is. A first value that is not a string throws before the pointer
is read. Otherwise the first round tests `*params_str`, finds it not null and hands it to
`js_realloc`. -/
def params_helper_wild : JSObject → Run (Except JSException Unit)
  | [] => .done (.ok ())
  | (_, .string _) :: _ => .undefined
  | _ :: _ => .done (.error (.TypeError "params\x27s value must be string"))

/-- Model of `headers_helper` entered with a wild pointer in `*headers_str`, in the same
way. -/
def headers_helper_wild : JSObject → Run (Except JSException Unit)
  | [] => .done (.ok ())
  | (_, .string _) :: _ => .undefined
  | _ :: _ => .done (.error (.TypeError "Header\x27s value must be a string"))

/-- The state of `http_fetch` when it reaches `curl_easy_perform`: the options set on the
transfer, the locals `params_str` and `headers_str`, and whether `CURLOPT_POSTFIELDS` was set
to a wild `params_str`. -/
structure FetchLocals where
  curl : CurlOptions
  params_str : CharPtr
  headers_str : CharPtr
  postfields_wild : Bool
  deriving DecidableEq, Repr

/-- The part of `http_fetch` on `req->js_fields[0]` (lines 696 to 704): the options, the
local `params_str` and whether `CURLOPT_POSTFIELDS` holds a wild pointer after it, or the
exception thrown. `params_str0` is the value found in the local. -/
def http_fetch_params (heap : JSHeap) (malloc_heap : Nat → Nat → Nat) (req : http_req)
    (curl : CurlOptions) (params_str0 : Uninit) :
    Run (Except JSException (CurlOptions × CharPtr × Bool)) :=
  if !JS_IsUndefined req.params then
    match params_str0 with
    | .null =>
      match params_helper malloc_heap (own_properties heap req.params) none with
      | .error e => .done (.error e)
      | .ok (some params_str) =>
        .done (.ok ({ curl with postfields := some params_str }, .str params_str, false))
      | .ok none => .done (.ok (curl, .null, false))
    | .wild =>
      match params_helper_wild (own_properties heap req.params) with
      | .undefined => .undefined
      | .done (.error e) => .done (.error e)
      | .done (.ok _) => .done (.ok (curl, .wild, true))
  else .done (.ok (curl, CharPtr.of_uninit params_str0, false))

/-- The part of `http_fetch` on `req->js_fields[1]` (lines 705 to 715): the state reached,
or the exception thrown after `js_free(ctx, params_str)`. `headers_str0` is the value found
in the local `headers_str`; `curl_slist_append` reads the string it is given. -/
def http_fetch_headers (heap : JSHeap) (req : http_req) (curl : CurlOptions)
    (params_str : CharPtr) (postfields_wild : Bool) (headers_str0 : Uninit) :
    Run (Except JSException FetchLocals) :=
  if !JS_IsUndefined req.headers then
    match headers_str0 with
    | .null =>
      match headers_helper (own_properties heap req.headers) none with
      | .error e =>
        match js_free params_str with
        | .undefined => .undefined
        | .done _ => .done (.error e)
      | .ok (some headers_str) =>
        .done (.ok { curl := { curl with httpheader := some [headers_str] },
                     params_str := params_str, headers_str := .str headers_str,
                     postfields_wild := postfields_wild })
      | .ok none =>
        .done (.ok { curl := curl, params_str := params_str, headers_str := .null,
                     postfields_wild := postfields_wild })
    | .wild =>
      match headers_helper_wild (own_properties heap req.headers) with
      | .undefined => .undefined
      | .done (.error e) =>
        match js_free params_str with
        | .undefined => .undefined
        | .done _ => .done (.error e)
      | .done (.ok _) => .undefined
  else
    .done (.ok { curl := curl, params_str := params_str,
                 headers_str := CharPtr.of_uninit headers_str0,
                 postfields_wild := postfields_wild })

/-- Model of `http_fetch` up to `curl_easy_perform`: the state reached, or the exception
thrown before the transfer. `get_req` is `JS_GetOpaque2` for the request class;
`curl_easy_init` is taken to succeed. `params_str0` and `headers_str0` are the values found
in the locals `params_str` and `headers_str`, which the source declares without
initialising them; the helpers and `js_free` receive them as they are. -/
def http_fetch_setup (heap : JSHeap) (malloc_heap : Nat → Nat → Nat)
    (get_req : JSValue → Option http_req) (params_str0 headers_str0 : Uninit)
    (argv : List JSValue) : Run (Except JSException FetchLocals) :=
  match argv with
  | [] => .done (.error (.TypeError "fetch([req]), req must be object"))
  | arg :: _ =>
    match get_req arg with
    | none => .done (.error (.TypeError "fetch([req]), req must be object"))
    | some req =>
      match req.uri with
      | none => .done (.error (.TypeError "fetch([req]), req.uri must be string"))
      | some uri =>
        let curl : CurlOptions :=
          { url := uri, customrequest := req.method, postfields := req.body, httpheader := none }
        match http_fetch_params heap malloc_heap req curl params_str0 with
        | .undefined => .undefined
        | .done (.error e) => .done (.error e)
        | .done (.ok (curl, params_str, postfields_wild)) =>
          http_fetch_headers heap req curl params_str postfields_wild headers_str0

/-- Model of `http_fetch`: the struct of the response object returned or the exception
thrown, when the run is defined. `curl_easy_perform` is the transport; it hands each body
chunk to `write_callback` with `size` 1, and reads `CURLOPT_POSTFIELDS`. After the transfer,
failed or not, `params_str` and `headers_str` are handed to `js_free`. `header_callback`
receives the null pointer `back_headers_str` by value, so that local stays null and the
headers of the response stay `undefined`. -/
def http_fetch (heap : JSHeap) (malloc_heap : Nat → Nat → Nat) (fresh : Nat → Nat)
    (get_req : JSValue → Option http_req) (curl_easy_perform : CurlOptions → CurlResult)
    (params_str0 headers_str0 : Uninit) (argv : List JSValue) :
    Run (Except JSException http_res) :=
  match http_fetch_setup heap malloc_heap get_req params_str0 headers_str0 argv with
  | .undefined => .undefined
  | .done (.error e) => .done (.error e)
  | .done (.ok locals) =>
    if locals.postfields_wild then .undefined
    else
      let res : http_res := { status := 0, reason := none, body := none, headers := .undefined }
      let ret := curl_easy_perform locals.curl
      let res := ret.body_chunks.foldl
        (fun res chunk => (write_callback fresh chunk 1 chunk.length res).2) res
      if ret.code ≠ 0 then
        let thrown : JSException := .TypeError ("curl_easy_perform failed: " ++ ret.strerror)
        match js_free locals.params_str, js_free locals.headers_str with
        | .done _, .done _ => .done (.error thrown)
        | _, _ => .undefined
      else
        match js_free locals.params_str, js_free locals.headers_str with
        | .done _, .done _ => .done (.ok { res with status := ret.response_code })
        | _, _ => .undefined

/-! ## `src/http.c`: server -/

/-- Model of the struct `http_server_cb`. -/
structure http_server_cb where
  server_this : JSValue
  callback_index : Nat
  deriving DecidableEq, Repr

/-- Model of the struct `http_server`: the handler registry `callbacks` and the
association records `cbs`, each with its length field. -/
structure http_server where
  callbacks : List JSValue
  callbacks_len : Nat
  cbs : List http_server_cb
  cbs_len : Nat
  deriving DecidableEq, Repr

/-- The server struct `http_server_ctor` leaves when its allocations succeed: the block of
`js_mallocz`, all zero. -/
def http_server_ctor : http_server :=
  { callbacks := [], callbacks_len := 0, cbs := [], cbs_len := 0 }

/-- Model of `js_realloc` on an array of `n` elements: the elements of the old array are
kept as far as the new size goes, the others are not initialised (`fill`). -/
def js_realloc_array {α : Type} (fill : α) (old : List α) (n : Nat) : List α :=
  (old ++ List.replicate n fill).take n

/-- Model of `http_server_on`, with `this_val` a server object whose struct is `server`:
the value returned or the exception thrown, and the struct after the call.
`evhttp_set_cb` is the code the listener returns for the registration. `JS_ToCString`
gives a string for every value, so only the handler is tested. -/
def http_server_on (evhttp_set_cb : Int) (server : http_server) (this_val : JSValue)
    (argv : List JSValue) : Except JSException Unit × http_server :=
  match argv with
  | _path :: handler :: _ =>
    if !JS_IsFunction handler then
      (.error (.TypeError "on([path, handler]), path and handler must be string and function"),
        server)
    else
      let call_back := handler
      let callbacks := js_realloc_array JSValue.undefined server.callbacks
        (server.callbacks_len + 1)
      let callbacks := callbacks.set server.callbacks_len call_back
      let server := { server with callbacks := callbacks,
                                  callbacks_len := server.callbacks_len + 1 }
      let cbs := js_realloc_array (http_server_cb.mk JSValue.undefined 0) server.cbs
        (server.cbs_len + 1)
      let cbs := cbs.set server.cbs_len
        { server_this := this_val, callback_index := server.callbacks_len - 1 }
      let server := { server with cbs := cbs, cbs_len := server.cbs_len + 1 }
      if evhttp_set_cb < 0 then
        (.error (.InternalError "Failed to set callback for path"), server)
      else (.ok (), server)
  | _ =>
    (.error (.TypeError "on([path, handler]), path and handler must be string and function"),
      server)

/-- Modelled from the spec: the command types `enum evhttp_cmd_type` of libevent
(`event2/http.h`, not part of the sources): `EVHTTP_REQ_GET`. -/
def EVHTTP_REQ_GET : Nat := 1

/-- Modelled from the spec: `EVHTTP_REQ_PATCH` of libevent. -/
def EVHTTP_REQ_PATCH : Nat := 256

/-- The table `evhttp_cmd_str`. -/
def evhttp_cmd_str : List String :=
  ["GET", "POST", "HEAD", "PUT", "DELETE", "OPTIONS", "TRACE", "CONNECT"]

/-- What a read of a table of strings gives: a null pointer, an entry, or a read outside
the table. -/
inductive TableRead where
  | null
  | entry (s : String)
  | out_of_bounds (index : Nat)
  deriving DecidableEq, Repr

/-- The loop of `evhttp_cmd_type_to_str`: the first `i` from `i` on, below `count`, with
`type & (1 << i)` not zero; `count` when there is none. -/
def evhttp_cmd_type_loop (type : Nat) (count : Nat) : Nat → Nat → Nat
  | 0, i => i
  | fuel + 1, i =>
    if i < count then
      if type &&& (1 <<< i) ≠ 0 then i
      else evhttp_cmd_type_loop type count fuel (i + 1)
    else i

/-- Model of `evhttp_cmd_type_to_str`: after the range check and the loop that sets `i`,
the value returned is `evhttp_cmd_str[type]`. -/
def evhttp_cmd_type_to_str (type : Nat) : TableRead :=
  if type < EVHTTP_REQ_GET ∨ type > EVHTTP_REQ_PATCH then .null
  else
    let _i := evhttp_cmd_type_loop type evhttp_cmd_str.length (evhttp_cmd_str.length + 1) 0
    match evhttp_cmd_str[type]? with
    | some s => .entry s
    | none => .out_of_bounds type

/-- Model of the start of `callback_helper` (lines 912 to 930): what `str_fields` of the
request built get, `(uri, method)`, or `none` when the request is dropped. The method is
the string `evhttp_cmd_type_to_str` points to. -/
def callback_helper_method (uri_str : Option (List Nat)) (method : Nat) :
    Option (List Nat × TableRead) :=
  let method_str := evhttp_cmd_type_to_str method
  match uri_str, method_str with
  | none, _ => none
  | _, .null => none
  | some uri, m => some (uri, m)

/-- The name of the integer property `idx`, in decimal. -/
def uint32_name (idx : Nat) : List Nat := (Nat.toDigits 10 idx).map Char.toNat

/-- Model of `JS_ToCString` and of `JS_ValueToAtom` as a name: a string is itself, any
other value is what the engine converts it to, given by `conv`. -/
def JS_ToCString (conv : JSValue → List Nat) : JSValue → List Nat
  | .string s => s
  | v => conv v

/-- Model of the loop of `callback_helper` over the headers of the response (lines 983 to
1007): the pairs handed to `evhttp_add_header`, in order. `headers` is the property
table of `res_obj->headers`; the key of round `idx` is the value of the property named
`idx`. -/
def callback_helper_headers (conv : JSValue → List Nat) (headers : JSObject) :
    Nat → Nat → List (List Nat × List Nat) → List (List Nat × List Nat)
  | 0, _, out => out
  | fuel + 1, idx, out =>
    let key := get_property headers (uint32_name idx)
    if JS_IsUndefined key then out
    else
      let atom := JS_ToCString conv key
      let value := get_property headers atom
      callback_helper_headers conv headers fuel (idx + 1)
        (out ++ [(JS_ToCString conv key, JS_ToCString conv value)])

/-- The offsets from `headers_str` at which the loop of `headers_to_obj` tests `*p`, in
order: the same walk as `headers_to_obj_loop`, with `mem` the memory at `headers_str` and
`cur` the offset of the cursor. -/
def headers_to_obj_cursors (mem : List Nat) : Nat → Nat → List Nat
  | 0, _ => []
  | fuel + 1, cur =>
    let p := mem.drop cur
    if peek p = 0 then [cur]
    else
      match strchr p 58 with
      | none => [cur]
      | some i =>
        let cur1 := cur + i + 1
        let cur2 := cur1 + ((mem.drop cur1).takeWhile (fun b => b = 32)).length
        match strchr (mem.drop cur2) 13 with
        | none => [cur]
        | some j => cur :: headers_to_obj_cursors mem fuel (cur2 + j + 2)

/-! ## Reference functions, written from the specification -/

/-- The set `[A-Za-z0-9._~]` named by the specification. -/
def in_spec_set (c : Nat) : Bool :=
  (65 ≤ c && c ≤ 90) || (97 ≤ c && c ≤ 122) || (48 ≤ c && c ≤ 57) ||
    c == 46 || c == 95 || c == 126

/-- The unreserved set `[A-Za-z0-9._~-]`: the set of the specification and the hyphen. -/
def is_unreserved (c : Nat) : Bool := in_spec_set c || c == 45

/-- Byte-by-byte percent-encoding over a set of bytes kept as they are: a byte of the set
stands for itself, any other byte becomes `%` and its two uppercase hexadecimal digits. -/
def percent_encode (keep : Nat → Bool) (s : List Nat) : List Nat :=
  s.flatMap (fun c => if keep c then [c] else [37, hex_digit_upper (c / 16), hex_digit_upper (c % 16)])

/-- Whether a byte is a hexadecimal digit, upper or lower case. -/
def is_hex_digit (c : Nat) : Bool :=
  (48 ≤ c && c ≤ 57) || (65 ≤ c && c ≤ 70) || (97 ≤ c && c ≤ 102)

/-- The value of a hexadecimal digit. -/
def hex_value (c : Nat) : Nat :=
  if c ≤ 57 then c - 48 else if c ≤ 70 then c - 55 else c - 87

/-- What a byte that is not part of a `%XX` sequence decodes to: `+` gives a space, any
other byte itself. -/
def decode_plain (b : Nat) : Nat := if b = 43 then 32 else b

/-- The decoder as the specification words it: `+` becomes a space, `%` followed by two
hexadecimal digits becomes the byte `16*hi+lo`, and every other byte, a `%` that is not
followed by two hexadecimal digits included, is copied. -/
def urldecode_spec : List Nat → List Nat
  | [] => []
  | b :: rest =>
    match rest with
    | h :: l :: rest2 =>
      if b = 37 ∧ is_hex_digit h ∧ is_hex_digit l then
        (16 * hex_value h + hex_value l) :: urldecode_spec rest2
      else decode_plain b :: urldecode_spec (h :: l :: rest2)
    | [h] => decode_plain b :: urldecode_spec [h]
    | [] => [decode_plain b]

/-- The decoder of the code, on strings: `+` becomes a space; `%` followed by two more bytes
is replaced, with them, by one byte, which is `16*hi+lo` when both are hexadecimal digits
and what `hex_to_char` computes from them otherwise; every other byte, a `%` followed by
fewer than two bytes included, is copied. -/
def urldecode_ref (signedChar : Bool) : List Nat → List Nat
  | [] => []
  | b :: rest =>
    match rest with
    | h :: l :: rest2 =>
      if b = 37 then
        (if is_hex_digit h ∧ is_hex_digit l then 16 * hex_value h + hex_value l
          else hex_to_char signedChar h l) :: urldecode_ref signedChar rest2
      else decode_plain b :: urldecode_ref signedChar (h :: l :: rest2)
    | [h] => decode_plain b :: urldecode_ref signedChar [h]
    | [] => [decode_plain b]

/-- Split a string on a one-byte separator. -/
def split_on (sep : Nat) : List Nat → List (List Nat)
  | [] => [[]]
  | b :: rest =>
    if b = sep then [] :: split_on sep rest
    else (b :: (split_on sep rest).headD []) :: (split_on sep rest).tail

/-- Join strings with a one-byte separator between them. -/
def join_on (sep : Nat) : List (List Nat) → List Nat
  | [] => []
  | [s] => s
  | s :: s2 :: rest => s ++ sep :: join_on sep (s2 :: rest)

/-- The text of a segment before the first `sep`. -/
def text_before (sep : Nat) (seg : List Nat) : List Nat := seg.takeWhile (fun b => b ≠ sep)

/-- The text of a segment after the first `sep`. -/
def text_after (sep : Nat) (seg : List Nat) : List Nat :=
  (seg.dropWhile (fun b => b ≠ sep)).drop 1

/-- The params parser as the specification words it, on the segments between `&`: a segment
with `=` gives the pair (text before its first `=`, text after it); the first segment
without `=` ends the parse. -/
def params_spec_segments : List (List Nat) → JSObject → JSObject
  | [], obj => obj
  | seg :: segs, obj =>
    if 61 ∈ seg then
      params_spec_segments segs
        (JS_DefinePropertyValueStr obj (text_before 61 seg) (.string (text_after 61 seg)))
    else obj

/-- The params parser as the specification words it. -/
def params_spec (s : List Nat) : JSObject := params_spec_segments (split_on 38 s) []

/-- Split a string on the two-byte separator `\r\n`. -/
def split_crlf : List Nat → List (List Nat)
  | [] => [[]]
  | b :: rest =>
    match rest with
    | c :: rest2 =>
      if b = 13 ∧ c = 10 then [] :: split_crlf rest2
      else (b :: (split_crlf (c :: rest2)).headD []) :: (split_crlf (c :: rest2)).tail
    | [] => [[b]]

/-- Join strings with `\r\n` between them. -/
def join_crlf : List (List Nat) → List Nat
  | [] => []
  | [s] => s
  | s :: s2 :: rest => s ++ 13 :: 10 :: join_crlf (s2 :: rest)

/-- The headers parser as the specification words it, on the lines between `\r\n`: a line
with `:` gives the pair (text before its first `:`, text after it without its leading
spaces); the first line without `:` ends the parse. -/
def headers_spec_lines : List (List Nat) → JSObject → JSObject
  | [], obj => obj
  | line :: lines, obj =>
    if 58 ∈ line then
      headers_spec_lines lines
        (JS_DefinePropertyValueStr obj (text_before 58 line)
          (.string ((text_after 58 line).dropWhile (fun b => b = 32))))
    else obj

/-- The headers parser as the specification words it. -/
def headers_spec (s : List Nat) : JSObject := headers_spec_lines (split_crlf s) []

/-- The line `Key: Value` of a pair of strings. -/
def header_line (kv : List Nat × List Nat) : List Nat := kv.1 ++ 58 :: 32 :: kv.2

/-- The header block as the specification words it: for each pair, in order, the key,
`: `, the value and `\r\n`, byte for byte. -/
def headers_wire (m : List (List Nat × List Nat)) : List Nat :=
  m.flatMap (fun kv => kv.1 ++ [58, 32] ++ kv.2 ++ [13, 10])

/-- A sequence of `on(path, handler)` calls with valid arguments on one server, each given
by the code the listener returns, the path and the reference of the handler function: the
struct after the calls. -/
def http_server_on_calls (this_val : JSValue) :
    List (Int × JSValue × Nat) → http_server → http_server
  | [], server => server
  | call :: calls, server =>
    http_server_on_calls this_val calls
      (http_server_on call.1 server this_val [call.2.1, .function call.2.2]).2

/-- What `set` owes a string field: with the property `v` of the seed absent the field keeps
its value, with it present the field holds the string `v`. -/
def str_field_updated (v : JSValue) (old new : Option (List Nat)) : Prop :=
  if v = .undefined then new = old else new.map JSValue.string = some v

/-- What `set` owes an object field: with the property `v` of the seed absent the field
keeps its value, with it present the field holds `v`. -/
def js_field_updated (v : JSValue) (old new : JSValue) : Prop :=
  if v = .undefined then new = old else new = v

/-- What `set` owes the status as the specification words it: with the property `v` of the
seed absent the status keeps its value, with it present the status is the number `v`. -/
def status_updated_spec (v : JSValue) (old new : Int) : Prop :=
  if v = .undefined then new = old else v = .number new

/-- What `set` does to the status: with the property `v` of the seed absent the status
keeps its value, with it present `v` is a number and the status is that number converted by
`JS_ToInt32`, which is the number itself in the range of a 32-bit integer. -/
def status_updated (v : JSValue) (old new : Int) : Prop :=
  match v with
  | .undefined => new = old
  | .number n =>
    new = JS_ToInt32 n ∧ (-2147483648 ≤ n ∧ n < 2147483648 → new = n)
  | _ => False

/-- The object whose properties are the given pairs of strings, in that order. -/
def string_map (m : List (List Nat × List Nat)) : JSObject :=
  m.map (fun kv => (kv.1, JSValue.string kv.2))

/-! ## Memory and C-string lemmas -/

theorem c_str_cons_zero (p : List Nat) : c_str (0 :: p) = [] := by
  simp [c_str]

theorem c_str_cons_ne (b : Nat) (p : List Nat) (h : b ≠ 0) : c_str (b :: p) = b :: c_str p := by
  simp [c_str, h]

theorem c_str_not_mem_zero (p : List Nat) : 0 ∉ c_str p := by
  intro h
  have := List.mem_takeWhile_imp h
  simp at this

theorem c_str_append_zero (s rest : List Nat) (h : 0 ∉ s) : c_str (s ++ 0 :: rest) = s := by
  induction s with
  | nil => simp [c_str]
  | cons b s ih =>
    have hb : b ≠ 0 := fun e => h (by simp [e])
    have hs : 0 ∉ s := fun e => h (by simp [e])
    simp [c_str_cons_ne b _ hb, ih hs]

theorem c_str_of_not_mem (s : List Nat) (h : 0 ∉ s) : c_str s = s := by
  induction s with
  | nil => rfl
  | cons b s ih =>
    have hb : b ≠ 0 := fun e => h (by simp [e])
    have hs : 0 ∉ s := fun e => h (by simp [e])
    simp [c_str_cons_ne b _ hb, ih hs]

theorem hex_digit_upper_ne_zero (d : Nat) : hex_digit_upper d ≠ 0 := by
  unfold hex_digit_upper
  split <;> omega

theorem percent_encode_cons (keep : Nat → Bool) (c : Nat) (s : List Nat) :
    percent_encode keep (c :: s) =
      (if keep c then [c] else [37, hex_digit_upper (c / 16), hex_digit_upper (c % 16)]) ++
        percent_encode keep s := by
  simp [percent_encode, List.flatMap_cons]

theorem percent_encode_not_mem_zero (keep : Nat → Bool) (s : List Nat) (h : 0 ∉ s) :
    0 ∉ percent_encode keep s := by
  induction s with
  | nil => simp [percent_encode]
  | cons b s ih =>
    have hb : b ≠ 0 := fun e => h (by simp [e])
    have hs : 0 ∉ s := fun e => h (by simp [e])
    rw [percent_encode_cons]
    intro hm
    rcases List.mem_append.mp hm with hm | hm
    · split at hm
      · simp at hm; exact hb hm.symm
      · simp at hm
        rcases hm with hm | hm
        · exact hex_digit_upper_ne_zero _ hm.symm
        · exact hex_digit_upper_ne_zero _ hm.symm
    · exact ih hs hm

theorem is_unreserved_eq (c : Nat) : is_unreserved c = !is_char_needs_encoding c := by
  simp only [is_unreserved, in_spec_set, is_char_needs_encoding, Bool.not_not]
  cases h1 : (97 ≤ c && c ≤ 122 : Bool) <;> cases h2 : (65 ≤ c && c ≤ 90 : Bool) <;>
    cases h3 : (48 ≤ c && c ≤ 57 : Bool) <;> cases h4 : (c == 45) <;> cases h5 : (c == 95) <;>
    cases h6 : (c == 46) <;> cases h7 : (c == 126) <;> rfl

theorem calculate_encoded_size_eq (s : List Nat) :
    calculate_encoded_size s = (percent_encode is_unreserved (c_str s)).length := by
  induction s with
  | nil => rfl
  | cons b s ih =>
    by_cases hb : b = 0
    · subst hb; simp [calculate_encoded_size, c_str_cons_zero, percent_encode]
    · rw [c_str_cons_ne b s hb, percent_encode_cons, calculate_encoded_size]
      simp only [hb, ne_eq, not_false_eq_true, if_true, is_unreserved_eq, List.length_append, ih]
      cases is_char_needs_encoding b <;> simp

/-- The memory left by `urlencode` when the capacity is enough for the whole encoding: the
encoding, a zero byte, and the bytes of `dst` behind it untouched. -/
theorem urlencode_mem (src : List Nat) : ∀ (dst : List Nat) (n : Nat),
    calculate_encoded_size src < n → n ≤ dst.length →
    urlencode src dst n =
      percent_encode is_unreserved (c_str src) ++ 0 :: dst.drop (calculate_encoded_size src + 1) := by
  induction src with
  | nil =>
    intro dst n h1 h2
    cases dst with
    | nil => simp at h2; omega
    | cons a dst => simp [urlencode, c_str, percent_encode, calculate_encoded_size]
  | cons c src ih =>
    intro dst n h1 h2
    by_cases hc : c = 0
    · subst hc
      cases dst with
      | nil => simp at h2; omega
      | cons a dst => simp [urlencode, c_str_cons_zero, percent_encode, calculate_encoded_size]
    · rw [c_str_cons_ne c src hc, percent_encode_cons, is_unreserved_eq]
      simp only [calculate_encoded_size, ne_eq, hc, not_false_eq_true, if_true] at h1 ⊢
      cases hn : is_char_needs_encoding c
      · simp only [hn, Bool.false_eq_true, if_false] at h1
        match dst, h2 with
        | a :: dst, h2 =>
          have hlen : n - 1 ≤ dst.length := by simp at h2; omega
          have := ih dst (n - 1) (by omega) hlen
          simp [urlencode, hc, hn, this, show 1 < n by omega, Nat.add_comm 1]
        | [], h2 => simp at h2; omega
      · simp only [hn, if_true] at h1
        match dst, h2 with
        | a :: b :: c' :: e :: dst, h2 =>
          have hlen : n - 3 ≤ (0 :: dst).length := by simp at h2 ⊢; omega
          have := ih (0 :: dst) (n - 3) (by omega) hlen
          simp [urlencode, hc, hn, urlencode_char, this, show 1 < n by omega,
            show ¬ n < 4 by omega, Nat.add_comm 3]
        | [], h2 => simp at h2; omega
        | [_], h2 => simp at h2; omega
        | [_, _], h2 => simp at h2; omega
        | [_, _, _], h2 => simp at h2; omega

/-- Whatever the capacity `n ≥ 1`, `urlencode` leaves in `dst` some zero-free bytes, fewer
than `n`, then a zero byte, and nothing else is changed. -/
theorem urlencode_shape (src : List Nat) : ∀ (dst : List Nat) (n : Nat),
    1 ≤ n → n ≤ dst.length →
    ∃ out : List Nat, out.length < n ∧ 0 ∉ out ∧
      urlencode src dst n = out ++ 0 :: dst.drop (out.length + 1) := by
  induction src with
  | nil =>
    intro dst n h1 h2
    cases dst with
    | nil => simp at h2; omega
    | cons a dst => exact ⟨[], by simpa using h1, by simp, by simp [urlencode]⟩
  | cons c src ih =>
    intro dst n h1 h2
    have stop : ∃ out : List Nat, out.length < n ∧ 0 ∉ out ∧
        dst.set 0 0 = out ++ 0 :: dst.drop (out.length + 1) := by
      cases dst with
      | nil => simp at h2; omega
      | cons a dst => exact ⟨[], by simpa using h1, by simp, by simp⟩
    unfold urlencode
    split
    next hcn =>
      obtain ⟨hc, hn1⟩ := hcn
      split
      next henc =>
        split
        next => exact stop
        next hn4 =>
          match dst, h2 with
          | a :: b :: c' :: e :: dst, h2 =>
            have hlen : n - 3 ≤ (0 :: dst).length := by simp at h2 ⊢; omega
            obtain ⟨out, ho1, ho2, ho3⟩ := ih (0 :: dst) (n - 3) (by omega) hlen
            refine ⟨37 :: hex_digit_upper (c / 16) :: hex_digit_upper (c % 16) :: out,
              by simp; omega, ?_, ?_⟩
            · simp only [List.mem_cons, not_or]
              exact ⟨by decide, (hex_digit_upper_ne_zero _).symm,
                (hex_digit_upper_ne_zero _).symm, ho2⟩
            · simp [urlencode_char, ho3]
          | [], h2 => simp at h2; omega
          | [_], h2 => simp at h2; omega
          | [_, _], h2 => simp at h2; omega
          | [_, _, _], h2 => simp at h2; omega
      next henc =>
        match dst, h2 with
        | a :: dst, h2 =>
          have hlen : n - 1 ≤ dst.length := by simp at h2; omega
          obtain ⟨out, ho1, ho2, ho3⟩ := ih dst (n - 1) (by omega) hlen
          refine ⟨c :: out, by simp; omega, ?_, ?_⟩
          · simp only [List.mem_cons, not_or]
            exact ⟨fun e => hc e.symm, ho2⟩
          · simp [ho3]
        | [], h2 => simp at h2; omega
    next => exact stop

theorem hex_nibble_of_hex_digit : ∀ c : Nat, c < 103 → ∀ sc : Bool, is_hex_digit c = true →
    hex_nibble (char_val sc c) = (hex_value c : Int) ∧ hex_value c < 16 := by
  decide

theorem hex_combine : ∀ a : Nat, a < 16 → ∀ b : Nat, b < 16 →
    ((to_u32 ((a : Int) * 16) ||| to_u32 (b : Int)) % 256 : Nat) = 16 * a + b := by
  decide

theorem is_hex_digit_lt (c : Nat) (h : is_hex_digit c = true) : c < 103 := by
  simp [is_hex_digit] at h
  omega

/-- On two hexadecimal digits, upper or lower case, `hex_to_char` is `16*hi+lo`. -/
theorem hex_to_char_of_hex_digits (sc : Bool) (h l : Nat) (hh : is_hex_digit h = true)
    (hl : is_hex_digit l = true) : hex_to_char sc h l = 16 * hex_value h + hex_value l := by
  obtain ⟨e1, b1⟩ := hex_nibble_of_hex_digit h (is_hex_digit_lt h hh) sc hh
  obtain ⟨e2, b2⟩ := hex_nibble_of_hex_digit l (is_hex_digit_lt l hl) sc hl
  unfold hex_to_char
  rw [e1, e2]
  exact hex_combine _ b1 _ b2

theorem urldecode_ref_cons_plain (sc : Bool) (b : Nat) (t : List Nat)
    (h : b ≠ 37 ∨ t.length < 2) :
    urldecode_ref sc (b :: t) = decode_plain b :: urldecode_ref sc t := by
  match t with
  | [] => simp [urldecode_ref]
  | [x] => simp [urldecode_ref]
  | x :: y :: t =>
    rcases h with h | h
    · simp [urldecode_ref, h]
    · simp at h
      omega

theorem peek_eq_zero_c_str (p : List Nat) (h : peek p = 0) : c_str p = [] := by
  cases p with
  | nil => rfl
  | cons b p =>
    simp [peek] at h
    subst h
    exact c_str_cons_zero p

/-- The memory left by the loop of `urldecode` when fuel and capacity are enough: the
decoded bytes, a zero byte, and the bytes of `dst` behind it untouched. -/
theorem urldecode_loop_mem (sc : Bool) : ∀ (fuel : Nat) (src dst : List Nat) (n : Nat),
    src.length < fuel → (urldecode_ref sc (c_str src)).length < n → n ≤ dst.length →
    urldecode_loop sc fuel src dst n =
      urldecode_ref sc (c_str src) ++
        0 :: dst.drop ((urldecode_ref sc (c_str src)).length + 1) := by
  intro fuel
  induction fuel with
  | zero => intro src dst n h; omega
  | succ fuel ih =>
    intro src dst n hf hn hcap
    match dst, hcap with
    | [], hcap => simp at hcap; omega
    | a :: dst, hcap =>
    cases src with
    | nil => simp [urldecode_loop, peek, c_str, urldecode_ref]
    | cons b rest =>
      by_cases hb : b = 0
      · subst hb
        simp [urldecode_loop, peek, c_str_cons_zero, urldecode_ref]
      · rw [c_str_cons_ne b rest hb] at hn ⊢
        have hlen : n - 1 ≤ dst.length := by simp at hcap; omega
        by_cases hp : b = 37 ∧ peek rest ≠ 0 ∧ peek (rest.drop 1) ≠ 0
        · obtain ⟨hb37, hh, hl⟩ := hp
          subst hb37
          match rest, hh, hl with
          | [], hh, _ => simp [peek] at hh
          | [_], _, hl => simp [peek] at hl
          | x :: y :: rest2, hh, hl =>
            simp [peek] at hh hl
            rw [c_str_cons_ne x _ hh, c_str_cons_ne y _ hl] at hn ⊢
            simp only [urldecode_ref, if_true, List.length_cons] at hn ⊢
            have hfuel : rest2.length < fuel := by simp at hf; omega
            have := ih rest2 dst (n - 1) hfuel (by omega) hlen
            have hbyte : hex_to_char sc x y =
                if is_hex_digit x = true ∧ is_hex_digit y = true then
                  16 * hex_value x + hex_value y
                else hex_to_char sc x y := by
              split
              next hxy => exact hex_to_char_of_hex_digits sc x y hxy.1 hxy.2
              next => rfl
            simp [urldecode_loop, peek, hh, hl, this, show 1 < n by omega, Nat.add_comm 1]
            exact hbyte
        · have hplain : urldecode_ref sc (b :: c_str rest) =
              decode_plain b :: urldecode_ref sc (c_str rest) := by
            apply urldecode_ref_cons_plain
            by_cases hb37 : b = 37
            · right
              by_cases hh : peek rest = 0
              · simp [peek_eq_zero_c_str rest hh]
              · have hl : peek (rest.drop 1) = 0 := by
                  by_contra hl
                  exact hp ⟨hb37, hh, hl⟩
                match rest, hh, hl with
                | [], hh, _ => simp [peek] at hh
                | x :: rest1, hh, hl =>
                  simp [peek] at hh
                  simp at hl
                  rw [c_str_cons_ne x _ hh, peek_eq_zero_c_str rest1 hl]
                  simp
            · left; exact hb37
          rw [hplain] at hn ⊢
          simp only [List.length_cons] at hn
          have hfuel : rest.length < fuel := by simp at hf; omega
          have := ih rest dst (n - 1) hfuel (by omega) hlen
          have hcond : ¬ (peek (b :: rest) = 37 ∧ peek (List.drop 1 (b :: rest)) ≠ 0 ∧
              peek (List.drop 2 (b :: rest)) ≠ 0) := by
            simpa [peek] using hp
          rw [urldecode_loop, if_pos ⟨by simpa [peek] using hb, by omega⟩, if_neg hcond]
          simp [peek, decode_plain, this, Nat.add_comm 1]

theorem urldecode_mem (sc : Bool) (src dst : List Nat) (n : Nat)
    (hn : (urldecode_ref sc (c_str src)).length < n) (hcap : n ≤ dst.length) :
    urldecode sc src dst n =
      urldecode_ref sc (c_str src) ++
        0 :: dst.drop ((urldecode_ref sc (c_str src)).length + 1) :=
  urldecode_loop_mem sc (src.length + 1) src dst n (Nat.lt_succ_self _) hn hcap

theorem hex_digit_upper_decodes : ∀ d : Nat, d < 16 →
    is_hex_digit (hex_digit_upper d) = true ∧ hex_value (hex_digit_upper d) = d := by
  decide

theorem is_unreserved_ne (c : Nat) (h : is_unreserved c = true) : c ≠ 37 ∧ c ≠ 43 := by
  simp [is_unreserved, in_spec_set] at h
  omega

/-- Decoding, on strings, undoes the percent-encoding of the code. -/
theorem urldecode_ref_percent_encode (sc : Bool) (t : List Nat) (hb : ∀ b ∈ t, b < 256) :
    urldecode_ref sc (percent_encode is_unreserved t) = t := by
  induction t with
  | nil => rfl
  | cons c t ih =>
    have hc : c < 256 := hb c (by simp)
    have ih := ih (fun b h => hb b (by simp [h]))
    rw [percent_encode_cons]
    by_cases hu : is_unreserved c = true
    · obtain ⟨h37, h43⟩ := is_unreserved_ne c hu
      simp only [hu, if_true, List.singleton_append]
      rw [urldecode_ref_cons_plain sc c _ (Or.inl h37), ih]
      simp [decode_plain, h43]
    · obtain ⟨x1, v1⟩ := hex_digit_upper_decodes (c / 16) (by omega)
      obtain ⟨x2, v2⟩ := hex_digit_upper_decodes (c % 16) (by omega)
      simp only [hu, if_false, Bool.false_eq_true, List.cons_append, List.nil_append]
      simp only [urldecode_ref, if_true, x1, x2, and_self, v1, v2, ih]
      congr 1
      omega

/-- The string `urlencode` leaves when the capacity is enough for the whole encoding. -/
theorem urlencode_c_str (src dst : List Nat) (n : Nat)
    (h : calculate_encoded_size src < n) (hcap : n ≤ dst.length) :
    c_str (urlencode src dst n) = percent_encode is_unreserved (c_str src) := by
  rw [urlencode_mem src dst n h hcap]
  exact c_str_append_zero _ _ (percent_encode_not_mem_zero _ _ (c_str_not_mem_zero src))

/-! ## The claims on `src/util.c` -/

/-- C1. Round trip: encode the string held at `src` with `urlencode` into a buffer of
capacity `n1` greater than `calculate_encoded_size src`, then decode that buffer with
`urldecode` into a buffer of capacity `n2` greater than the length of the string: the
string left in the second buffer is the string held at `src`. -/
theorem urldecode_urlencode_roundtrip (signedChar : Bool) (src dst1 dst2 : List Nat)
    (n1 n2 : Nat) (hbytes : ∀ b ∈ c_str src, b < 256)
    (h1 : calculate_encoded_size src < n1) (hcap1 : n1 ≤ dst1.length)
    (h2 : strlen src < n2) (hcap2 : n2 ≤ dst2.length) :
    c_str (urldecode signedChar (urlencode src dst1 n1) dst2 n2) = c_str src := by
  have hz : 0 ∉ percent_encode is_unreserved (c_str src) :=
    percent_encode_not_mem_zero _ _ (c_str_not_mem_zero src)
  have hE : c_str (urlencode src dst1 n1) = percent_encode is_unreserved (c_str src) := by
    rw [urlencode_mem src dst1 n1 h1 hcap1]
    exact c_str_append_zero _ _ hz
  have hR : urldecode_ref signedChar (c_str (urlencode src dst1 n1)) = c_str src := by
    rw [hE]
    exact urldecode_ref_percent_encode signedChar _ hbytes
  rw [urldecode_mem signedChar _ dst2 n2 (by rw [hR]; exact h2) hcap2, hR]
  exact c_str_append_zero _ _ (c_str_not_mem_zero src)

theorem urldecode_urlencode_roundtrip_witness :
    c_str (urldecode true (urlencode [97, 32, 43, 37, 200] (List.replicate 14 1) 14)
      (List.replicate 6 1) 6) = c_str [97, 32, 43, 37, 200] :=
  urldecode_urlencode_roundtrip true [97, 32, 43, 37, 200] (List.replicate 14 1)
    (List.replicate 6 1) 14 6 (by decide) (by decide) (by decide) (by decide) (by decide)

/-- C2, as stated, fails on the hyphen: the specification's set `[A-Za-z0-9._~]` makes
`-` a `%2D`, while `urlencode` copies it. -/
theorem urlencode_hyphen_counterexample :
    c_str (urlencode [45] [1, 1, 1, 1] 4) = [45] ∧
      percent_encode in_spec_set (c_str [45]) = [37, 50, 68] := by
  decide

/-- C2, amended. With a capacity `n` greater than `calculate_encoded_size src`, the string
`urlencode` leaves in `dst` is the byte-by-byte encoding of the string at `src`: a byte of
`[A-Za-z0-9._~-]` stands for itself, any other byte becomes `%` and its two uppercase
hexadecimal digits. -/
theorem urlencode_eq_percent_encode (src dst : List Nat) (n : Nat)
    (h : calculate_encoded_size src < n) (hcap : n ≤ dst.length) :
    c_str (urlencode src dst n) = percent_encode is_unreserved (c_str src) :=
  urlencode_c_str src dst n h hcap

theorem urlencode_eq_percent_encode_witness :
    c_str (urlencode [45, 47] [1, 1, 1, 1, 1] 5) = percent_encode is_unreserved (c_str [45, 47]) :=
  urlencode_eq_percent_encode [45, 47] [1, 1, 1, 1, 1] 5 (by decide) (by decide)

/-- C3, as stated, fails on `%GG`: the specification copies a `%` that is not followed by
two hexadecimal digits, while `urldecode` replaces the three bytes by the single byte 16,
whether `char` is signed or not. -/
theorem urldecode_non_hex_counterexample :
    urldecode_spec (c_str [37, 71, 71]) = [37, 71, 71] ∧
      urldecode true [37, 71, 71] [1, 1, 1, 1] 4 = [16, 0, 1, 1] ∧
      urldecode false [37, 71, 71] [1, 1, 1, 1] 4 = [16, 0, 1, 1] := by
  decide

/-- C3, amended. With a capacity `n` greater than the length of the decoded string,
`urldecode` stores the reference decoding of the string at `src` and a zero byte, and
nothing else: `+` becomes a space; `%` followed by two more bytes is replaced, with them, by
one byte, which is `16*hi+lo` when both are hexadecimal digits (upper or lower case); every
other byte, a `%` followed by fewer than two bytes included, is copied. -/
theorem urldecode_eq_ref (signedChar : Bool) (src dst : List Nat) (n : Nat)
    (hn : (urldecode_ref signedChar (c_str src)).length < n) (hcap : n ≤ dst.length) :
    urldecode signedChar src dst n =
      urldecode_ref signedChar (c_str src) ++
        0 :: dst.drop ((urldecode_ref signedChar (c_str src)).length + 1) :=
  urldecode_mem signedChar src dst n hn hcap

theorem urldecode_eq_ref_witness :
    urldecode true [97, 43, 37, 52, 49, 37] [1, 1, 1, 1, 1, 1] 5 =
      urldecode_ref true (c_str [97, 43, 37, 52, 49, 37]) ++
        0 :: [1, 1, 1, 1, 1, 1].drop
          ((urldecode_ref true (c_str [97, 43, 37, 52, 49, 37])).length + 1) :=
  urldecode_eq_ref true [97, 43, 37, 52, 49, 37] [1, 1, 1, 1, 1, 1] 5 (by decide) (by decide)

/-- C4, as stated, fails at capacity 0: `urlencode` stores the terminating zero byte at
offset 0 of a destination in which it may store nothing. -/
theorem urlencode_capacity_zero_counterexample :
    (urlencode [97] [55] 0).drop 0 ≠ ([55] : List Nat).drop 0 := by
  decide

/-- C4, amended. For every source and every capacity `n ≥ 1`, `urlencode` changes no
byte of the destination at offset `n` or beyond, and the string it leaves is shorter than
`n`: its terminating zero byte lies within the first `n` bytes. -/
theorem urlencode_within_capacity (src dst : List Nat) (n : Nat) (hn : 1 ≤ n)
    (hcap : n ≤ dst.length) :
    (urlencode src dst n).length = dst.length ∧
      (urlencode src dst n).drop n = dst.drop n ∧
      strlen (urlencode src dst n) < n ∧
      (urlencode src dst n)[strlen (urlencode src dst n)]? = some 0 := by
  obtain ⟨out, h1, h2, h3⟩ := urlencode_shape src dst n hn hcap
  have hs : strlen (urlencode src dst n) = out.length := by
    rw [strlen, h3, c_str_append_zero _ _ h2]
  rw [hs]
  refine ⟨?_, ?_, h1, ?_⟩
  · rw [h3]
    simp
    omega
  · rw [h3]
    obtain ⟨k, hk⟩ : ∃ k, n = out.length + (k + 1) := ⟨n - out.length - 1, by omega⟩
    rw [hk, List.drop_append, List.drop_succ_cons, List.drop_drop]
    congr 1
    omega
  · rw [h3, List.getElem?_append_right (Nat.le_refl _)]
    simp

theorem urlencode_within_capacity_witness :
    (urlencode [97, 32, 98] [1, 1, 1, 1, 1, 1] 4).length = [1, 1, 1, 1, 1, 1].length ∧
      (urlencode [97, 32, 98] [1, 1, 1, 1, 1, 1] 4).drop 4 = [1, 1, 1, 1, 1, 1].drop 4 ∧
      strlen (urlencode [97, 32, 98] [1, 1, 1, 1, 1, 1] 4) < 4 ∧
      (urlencode [97, 32, 98] [1, 1, 1, 1, 1, 1] 4)[strlen
        (urlencode [97, 32, 98] [1, 1, 1, 1, 1, 1] 4)]? = some 0 :=
  urlencode_within_capacity [97, 32, 98] [1, 1, 1, 1, 1, 1] 4 (by decide) (by decide)

/-- C5. Called with capacity exactly `calculate_encoded_size src + 1`, `urlencode` leaves
the whole encoding of the string at `src`, whose length is `calculate_encoded_size src`:
three for each byte that needs encoding and one for each byte that does not. -/
theorem urlencode_exact_capacity (src dst : List Nat)
    (hcap : calculate_encoded_size src + 1 ≤ dst.length) :
    c_str (urlencode src dst (calculate_encoded_size src + 1)) =
        percent_encode is_unreserved (c_str src) ∧
      strlen (urlencode src dst (calculate_encoded_size src + 1)) =
        calculate_encoded_size src ∧
      calculate_encoded_size src =
        3 * (c_str src).countP is_char_needs_encoding +
          (c_str src).countP (fun c => !is_char_needs_encoding c) := by
  have h := urlencode_c_str src dst _ (Nat.lt_succ_self _) hcap
  refine ⟨h, ?_, ?_⟩
  · rw [strlen, h, calculate_encoded_size_eq]
  · clear h hcap
    induction src with
    | nil => rfl
    | cons c src ih =>
      by_cases hc : c = 0
      · subst hc; simp [calculate_encoded_size, c_str_cons_zero]
      · rw [c_str_cons_ne c src hc, calculate_encoded_size]
        simp only [ne_eq, hc, not_false_eq_true, if_true, List.countP_cons, ih]
        cases is_char_needs_encoding c <;> simp <;> omega

theorem urlencode_exact_capacity_witness :
    c_str (urlencode [97, 32] [1, 1, 1, 1, 1] (calculate_encoded_size [97, 32] + 1)) =
        percent_encode is_unreserved (c_str [97, 32]) ∧
      strlen (urlencode [97, 32] [1, 1, 1, 1, 1] (calculate_encoded_size [97, 32] + 1)) =
        calculate_encoded_size [97, 32] ∧
      calculate_encoded_size [97, 32] =
        3 * (c_str [97, 32]).countP is_char_needs_encoding +
          (c_str [97, 32]).countP (fun c => !is_char_needs_encoding c) :=
  urlencode_exact_capacity [97, 32] [1, 1, 1, 1, 1] (by decide)


/-! ## Lemmas on `strchr`, splitting and joining -/

theorem strchr_append_found (c : Nat) (pre rest : List Nat) (h0 : 0 ∉ pre) (hc : c ∉ pre) :
    strchr (pre ++ c :: rest) c = some pre.length := by
  induction pre with
  | nil => simp [strchr]
  | cons b pre ih =>
    have hb0 : b ≠ 0 := fun e => h0 (by simp [e])
    have hbc : b ≠ c := fun e => hc (by simp [e])
    have := ih (fun e => h0 (by simp [e])) (fun e => hc (by simp [e]))
    simp [strchr, hb0, hbc, this]

theorem strchr_append_zero (c : Nat) (pre rest : List Nat) (hc0 : c ≠ 0) (hc : c ∉ pre) :
    strchr (pre ++ 0 :: rest) c = none := by
  induction pre with
  | nil => simp [strchr, Ne.symm hc0]
  | cons b pre ih =>
    have hbc : b ≠ c := fun e => hc (by simp [e])
    have := ih (fun e => hc (by simp [e]))
    simp only [List.cons_append, strchr, hbc, if_false]
    split
    · rfl
    · simp [this]

theorem peek_append_ne_zero (pre : List Nat) (c : Nat) (rest : List Nat) (h0 : 0 ∉ pre)
    (hc : c ≠ 0) : peek (pre ++ c :: rest) ≠ 0 := by
  cases pre with
  | nil => simpa [peek] using hc
  | cons b pre =>
    have hb0 : b ≠ 0 := fun e => h0 (by simp [e])
    simpa [peek] using hb0

theorem text_split (sep : Nat) (seg : List Nat) (h : sep ∈ seg) :
    seg = text_before sep seg ++ sep :: text_after sep seg := by
  induction seg with
  | nil => simp at h
  | cons b seg ih =>
    by_cases hb : b = sep
    · subst hb
      simp [text_before, text_after]
    · have hm : sep ∈ seg := by
        rcases List.mem_cons.mp h with e | e
        · exact absurd e.symm hb
        · exact e
      have := ih hm
      simp only [text_before, text_after] at this ⊢
      simp only [List.takeWhile_cons, List.dropWhile_cons, ne_eq, hb, not_false_eq_true,
        decide_True, if_true, List.cons_append]
      exact congrArg (List.cons b) this

theorem text_before_not_mem (sep : Nat) (seg : List Nat) : sep ∉ text_before sep seg := by
  intro h
  have := List.mem_takeWhile_imp h
  simp at this

theorem text_before_subset (sep : Nat) (seg : List Nat) (b : Nat)
    (h : b ∈ text_before sep seg) : b ∈ seg :=
  (List.takeWhile_sublist _).subset h

theorem text_after_subset (sep : Nat) (seg : List Nat) (b : Nat)
    (h : b ∈ text_after sep seg) : b ∈ seg :=
  (List.dropWhile_sublist _).subset (List.mem_of_mem_drop h)

theorem text_before_append (sep : Nat) (pre post : List Nat) (h : sep ∉ pre) :
    text_before sep (pre ++ sep :: post) = pre := by
  induction pre with
  | nil => simp [text_before]
  | cons b pre ih =>
    have hb : b ≠ sep := fun e => h (by simp [e])
    have := ih (fun e => h (by simp [e]))
    simp only [text_before] at this ⊢
    simpa [hb] using this

theorem text_after_append (sep : Nat) (pre post : List Nat) (h : sep ∉ pre) :
    text_after sep (pre ++ sep :: post) = post := by
  induction pre with
  | nil => simp [text_after]
  | cons b pre ih =>
    have hb : b ≠ sep := fun e => h (by simp [e])
    have := ih (fun e => h (by simp [e]))
    simp only [text_after] at this ⊢
    simpa [hb] using this

theorem split_on_ne_nil (sep : Nat) (s : List Nat) : split_on sep s ≠ [] := by
  cases s with
  | nil => simp [split_on]
  | cons b s =>
    simp only [split_on]
    split <;> simp

theorem join_on_cons (sep : Nat) (seg : List Nat) (segs : List (List Nat)) (h : segs ≠ []) :
    join_on sep (seg :: segs) = seg ++ sep :: join_on sep segs := by
  cases segs with
  | nil => exact absurd rfl h
  | cons s2 rest => rfl

theorem join_on_split_on (sep : Nat) (s : List Nat) : join_on sep (split_on sep s) = s := by
  induction s with
  | nil => rfl
  | cons b s ih =>
    simp only [split_on]
    split
    next hb =>
      rw [join_on_cons sep [] _ (split_on_ne_nil sep s), ih, hb]
      rfl
    next hb =>
      cases hs : split_on sep s with
      | nil => exact absurd hs (split_on_ne_nil sep s)
      | cons seg segs =>
        rw [hs] at ih
        cases segs with
        | nil =>
          simp only [join_on] at ih
          simp [join_on, ih]
        | cons s2 rest =>
          simp only [join_on] at ih
          simp [join_on, ih]

theorem split_on_mem (sep : Nat) (s : List Nat) :
    ∀ seg ∈ split_on sep s, sep ∉ seg ∧ ∀ b ∈ seg, b ∈ s := by
  induction s with
  | nil =>
    intro seg h
    simp [split_on] at h
    subst h
    simp
  | cons b s ih =>
    intro seg h
    simp only [split_on] at h
    split at h
    next hb =>
      rcases List.mem_cons.mp h with e | e
      · subst e; simp
      · obtain ⟨h1, h2⟩ := ih seg e
        exact ⟨h1, fun x hx => List.mem_cons_of_mem _ (h2 x hx)⟩
    next hb =>
      cases hs : split_on sep s with
      | nil => exact absurd hs (split_on_ne_nil sep s)
      | cons seg0 segs =>
        rw [hs] at h ih
        simp only [List.headD_cons, List.tail_cons] at h
        rcases List.mem_cons.mp h with e | e
        · subst e
          obtain ⟨h1, h2⟩ := ih seg0 (by simp)
          refine ⟨?_, ?_⟩
          · intro hm
            rcases List.mem_cons.mp hm with e | e
            · exact hb e.symm
            · exact h1 e
          · intro x hx
            rcases List.mem_cons.mp hx with e | e
            · subst e; simp
            · exact List.mem_cons_of_mem _ (h2 x e)
        · obtain ⟨h1, h2⟩ := ih seg (List.mem_cons_of_mem _ e)
          exact ⟨h1, fun x hx => List.mem_cons_of_mem _ (h2 x hx)⟩

theorem not_mem_join_on (sep c : Nat) (hc : c ≠ sep) (segs : List (List Nat))
    (h : ∀ seg ∈ segs, c ∉ seg) : c ∉ join_on sep segs := by
  induction segs with
  | nil => simp [join_on]
  | cons seg segs ih =>
    cases segs with
    | nil => simpa [join_on] using h seg (by simp)
    | cons s2 rest =>
      simp only [join_on, List.mem_append, List.mem_cons, not_or]
      refine ⟨h seg (by simp), hc, ?_⟩
      exact ih (fun x hx => h x (List.mem_cons_of_mem _ hx))

theorem join_on_length_lt (sep : Nat) (seg : List Nat) (segs : List (List Nat))
    (h : segs ≠ []) : (join_on sep segs).length < (join_on sep (seg :: segs)).length := by
  rw [join_on_cons sep seg segs h]
  simp
  omega

/-! ## `params_to_obj` -/

/-- One iteration of the loop of `params_to_obj`, on a cursor at a name that `=` ends. -/
theorem params_to_obj_loop_step (fuel : Nat) (pre rest : List Nat) (obj : JSObject)
    (h0 : 0 ∉ pre) (h61 : 61 ∉ pre) :
    params_to_obj_loop (fuel + 1) (pre ++ 61 :: rest) obj =
      match strchr rest 38 with
      | none =>
        params_to_obj_loop fuel (rest.drop (strlen rest))
          (JS_DefinePropertyValueStr obj pre (.string (c_str rest)))
      | some j =>
        params_to_obj_loop fuel (rest.drop (j + 1))
          (JS_DefinePropertyValueStr obj pre (.string (rest.take j))) := by
  rw [params_to_obj_loop, if_neg (peek_append_ne_zero pre 61 rest h0 (by decide)),
    strchr_append_found 61 pre rest h0 h61]
  simp

theorem params_to_obj_loop_end (fuel : Nat) (junk : List Nat) (obj : JSObject) :
    params_to_obj_loop fuel (0 :: junk) obj = obj := by
  cases fuel with
  | zero => rfl
  | succ fuel => simp [params_to_obj_loop, peek]

theorem params_to_obj_loop_no_eq (fuel : Nat) (s junk : List Nat) (obj : JSObject)
    (h : 61 ∉ s) : params_to_obj_loop fuel (s ++ 0 :: junk) obj = obj := by
  cases fuel with
  | zero => rfl
  | succ fuel =>
    rw [params_to_obj_loop, strchr_append_zero 61 s junk (by decide) h]
    simp

/-- The loop of `params_to_obj` on segments joined by `&`, when no segment without `=`
comes before a segment with `=`. -/
theorem params_to_obj_loop_segments (junk : List Nat) :
    ∀ (segs : List (List Nat)) (obj : JSObject) (fuel : Nat),
    (∀ seg ∈ segs, 38 ∉ seg ∧ 0 ∉ seg) →
    segs.Pairwise (fun a b => 61 ∈ b → 61 ∈ a) →
    (join_on 38 segs).length < fuel →
    params_to_obj_loop fuel (join_on 38 segs ++ 0 :: junk) obj =
      params_spec_segments segs obj := by
  intro segs
  induction segs with
  | nil =>
    intro obj fuel _ _ _
    simp only [join_on, List.nil_append, params_spec_segments]
    exact params_to_obj_loop_end fuel junk obj
  | cons seg segs ih =>
    intro obj fuel hseg hord hfuel
    obtain ⟨hord1, hord2⟩ := List.pairwise_cons.mp hord
    obtain ⟨h38, h0⟩ := hseg seg (by simp)
    have hsegs : ∀ x ∈ segs, 38 ∉ x ∧ 0 ∉ x := fun x hx => hseg x (List.mem_cons_of_mem _ hx)
    by_cases heq : 61 ∈ seg
    · simp only [params_spec_segments, heq, if_true]
      have hsplit := text_split 61 seg heq
      have hpre0 : 0 ∉ text_before 61 seg := fun e => h0 (text_before_subset _ _ _ e)
      have hpost0 : 0 ∉ text_after 61 seg := fun e => h0 (text_after_subset _ _ _ e)
      have hpost38 : 38 ∉ text_after 61 seg := fun e => h38 (text_after_subset _ _ _ e)
      obtain ⟨f, rfl⟩ : ∃ f, fuel = f + 1 := ⟨fuel - 1, by omega⟩
      cases segs with
      | nil =>
        have hM : join_on 38 [seg] ++ 0 :: junk =
            text_before 61 seg ++ 61 :: (text_after 61 seg ++ 0 :: junk) := by
          simp only [join_on]
          conv_lhs => rw [hsplit]
          simp
        rw [hM, params_to_obj_loop_step f _ _ obj hpre0 (text_before_not_mem 61 seg),
          strchr_append_zero 38 _ junk (by decide) hpost38]
        simp only [strlen, c_str_append_zero _ _ hpost0, List.drop_left, params_spec_segments]
        exact params_to_obj_loop_end f junk _
      | cons s2 rest =>
        have hM : join_on 38 (seg :: s2 :: rest) ++ 0 :: junk =
            text_before 61 seg ++ 61 ::
              (text_after 61 seg ++ 38 :: (join_on 38 (s2 :: rest) ++ 0 :: junk)) := by
          simp only [join_on]
          conv_lhs => rw [hsplit]
          simp
        have hlen : (join_on 38 (s2 :: rest)).length < f := by
          have := join_on_length_lt 38 seg (s2 :: rest) (by simp)
          omega
        rw [hM, params_to_obj_loop_step f _ _ obj hpre0 (text_before_not_mem 61 seg),
          strchr_append_found 38 _ _ hpost0 hpost38]
        simp only [List.take_left, List.drop_left]
        have hd : List.drop ((text_after 61 seg).length + 1)
            (text_after 61 seg ++ 38 :: (join_on 38 (s2 :: rest) ++ 0 :: junk)) =
            join_on 38 (s2 :: rest) ++ 0 :: junk := by
          rw [List.drop_append]
          simp
        rw [hd]
        exact ih _ f hsegs hord2 hlen
    · simp only [params_spec_segments, heq, if_false]
      apply params_to_obj_loop_no_eq
      apply not_mem_join_on 38 61 (by decide)
      intro x hx
      rcases List.mem_cons.mp hx with e | e
      · subst e; exact heq
      · exact fun h => heq (hord1 x e h)

theorem js_malloc_length (block : Nat → Nat) (span : Nat) :
    (js_malloc block span).length = span := by
  simp [js_malloc]

theorem is_unreserved_facts (b : Nat) (h : is_unreserved b = true) :
    b ≠ 0 ∧ b ≠ 38 ∧ b ≠ 61 := by
  simp [is_unreserved, in_spec_set] at h
  omega

theorem percent_encode_unreserved (s : List Nat) (h : ∀ b ∈ s, is_unreserved b = true) :
    percent_encode is_unreserved s = s := by
  induction s with
  | nil => rfl
  | cons b s ih =>
    rw [percent_encode_cons, ih (fun x hx => h x (List.mem_cons_of_mem _ hx))]
    simp [h b (by simp)]

/-- What `params_helper` leaves for a map of one pair: the encoded key, `=`, the encoded
value. In its only iteration `cnt` is still zero when the key is encoded. -/
theorem params_helper_single (heap : Nat → Nat → Nat) (k v : List Nat) :
    params_helper heap [(k, .string v)] none =
      .ok (some (percent_encode is_unreserved (c_str k) ++
        61 :: percent_encode is_unreserved (c_str v))) := by
  have h1 := urlencode_c_str k (js_malloc (heap 0) (calculate_encoded_size k + 1))
    (calculate_encoded_size k + 1) (Nat.lt_succ_self _) (by rw [js_malloc_length])
  have h2 := urlencode_c_str v (js_malloc (heap 1) (calculate_encoded_size v + 1))
    (calculate_encoded_size v + 1) (Nat.lt_succ_self _) (by rw [js_malloc_length])
  simp only [params_helper, params_helper_loop, Nat.mul_zero, Nat.zero_add, List.take_zero,
    List.drop_zero, List.nil_append, strcat, h1, h2]
  simp [c_str]

/-! ## The claims on params -/

/-- C6, as stated, fails on the map `a -> "b c"`: `params_helper` percent-encodes the value
and `params_to_obj` does not decode it, so the map read back is `a -> "b%20c"`. -/
theorem params_roundtrip_counterexample :
    (params_helper (fun _ _ => 0) (string_map [([97], [98, 32, 99])]) none).map
        (fun r => params_to_obj (r.map (fun str => str ++ [0]))) =
      .ok (some (string_map [([97], [98, 37, 50, 48, 99])])) ∧
    string_map [([97], [98, 37, 50, 48, 99])] ≠ string_map [([97], [98, 32, 99])] := by
  decide

/-- C6, amended. For every map of exactly one pair whose key and value are made of bytes of
`[A-Za-z0-9._~-]` only, `params_to_obj` applied to the string `params_helper` leaves (followed
in memory by its zero byte and anything else) gives back that map, whatever the content of
the blocks allocated. -/
theorem params_roundtrip_single (heap : Nat → Nat → Nat) (k v junk : List Nat)
    (hk : ∀ b ∈ k, is_unreserved b = true) (hv : ∀ b ∈ v, is_unreserved b = true) :
    (params_helper heap (string_map [(k, v)]) none).map
        (fun r => params_to_obj (r.map (fun str => str ++ 0 :: junk))) =
      .ok (some (string_map [(k, v)])) := by
  have hk0 : 0 ∉ k := fun e => (is_unreserved_facts 0 (hk 0 e)).1 rfl
  have hv0 : 0 ∉ v := fun e => (is_unreserved_facts 0 (hv 0 e)).1 rfl
  have hk61 : 61 ∉ k := fun e => (is_unreserved_facts 61 (hk 61 e)).2.2 rfl
  have hv38 : 38 ∉ v := fun e => (is_unreserved_facts 38 (hv 38 e)).2.1 rfl
  have hs : string_map [(k, v)] = [(k, JSValue.string v)] := rfl
  rw [hs, params_helper_single, c_str_of_not_mem k hk0, c_str_of_not_mem v hv0,
    percent_encode_unreserved k hk, percent_encode_unreserved v hv]
  simp only [Except.map, Option.map, params_to_obj, List.append_assoc, List.cons_append]
  rw [params_to_obj_loop_step _ k _ [] hk0 hk61, strchr_append_zero 38 v junk (by decide) hv38]
  simp only [strlen, c_str_append_zero v junk hv0, List.drop_left]
  rw [params_to_obj_loop_end]
  rfl

theorem params_roundtrip_single_witness :
    (params_helper (fun _ _ => 7) (string_map [([97, 45], [49, 126])]) none).map
        (fun r => params_to_obj (r.map (fun str => str ++ 0 :: [61, 38])))  =
      .ok (some (string_map [([97, 45], [49, 126])])) :=
  params_roundtrip_single (fun _ _ => 7) [97, 45] [49, 126] [61, 38] (by decide) (by decide)

/-- C7 fails in the code from the second pair on. For the map `a -> "1", b -> "2"` the
string should be `a=1&b=2`; the key `b` is encoded at `str_buf1 + cnt` and the string
appended is read at `str_buf1`, in a block that was not initialised: with that block holding
zero bytes the result is `a=1&=2`, with it holding `zz` the result is `a=1&zz=2`. -/
theorem params_helper_second_key_lost :
    params_helper (fun _ _ => 0) (string_map [([97], [49]), ([98], [50])]) none =
      .ok (some [97, 61, 49, 38, 61, 50]) ∧
    params_helper (fun _ off => if off < 2 then 122 else 0)
        (string_map [([97], [49]), ([98], [50])]) none =
      .ok (some [97, 61, 49, 38, 122, 122, 61, 50]) ∧
    percent_encode is_unreserved [97] ++ 61 :: percent_encode is_unreserved [49] ++
        38 :: percent_encode is_unreserved [98] ++ 61 :: percent_encode is_unreserved [50] =
      [97, 61, 49, 38, 98, 61, 50] := by
  decide

/-- C8, as stated, fails on `a&b=c`: the first segment has no `=`, so the specification
stops with no pair, while `params_to_obj` looks for the next `=` across the `&` and gives
the pair `a&b -> c`. -/
theorem params_to_obj_counterexample :
    params_to_obj (some ([97, 38, 98, 61, 99] ++ [0])) =
      some (string_map [([97, 38, 98], [99])]) ∧
    params_spec [97, 38, 98, 61, 99] = [] := by
  decide

/-- C8, amended. For every string `s` in which no segment without `=` comes before a
segment with `=`, `params_to_obj` gives what splitting `s` on `&` and processing the
segments left to right gives: a segment with `=` gives the pair (text before its first `=`,
text after it), and the first segment without `=` ends the parse without error. -/
theorem params_to_obj_eq_spec (s junk : List Nat) (h0 : 0 ∉ s)
    (hord : (split_on 38 s).Pairwise (fun a b => 61 ∈ b → 61 ∈ a)) :
    params_to_obj (some (s ++ 0 :: junk)) = some (params_spec s) := by
  simp only [params_to_obj, params_spec]
  congr 1
  have hmem := split_on_mem 38 s
  have := params_to_obj_loop_segments junk (split_on 38 s) []
    ((s ++ 0 :: junk).length + 1)
    (fun seg hseg => ⟨(hmem seg hseg).1, fun e => h0 ((hmem seg hseg).2 0 e)⟩) hord
    (by rw [join_on_split_on]; simp; omega)
  rw [join_on_split_on] at this
  exact this

theorem params_to_obj_eq_spec_witness :
    params_to_obj (some ([97, 61, 49, 61, 38, 98, 61, 38, 99, 38, 100] ++ 0 :: [61, 5])) =
      some (params_spec [97, 61, 49, 61, 38, 98, 61, 38, 99, 38, 100]) :=
  params_to_obj_eq_spec [97, 61, 49, 61, 38, 98, 61, 38, 99, 38, 100] [61, 5]
    (by decide) (by decide)

/-! ## `headers_to_obj` -/

theorem split_crlf_ne_nil (s : List Nat) : split_crlf s ≠ [] := by
  match s with
  | [] => simp [split_crlf]
  | [b] => simp [split_crlf]
  | b :: c :: rest =>
    simp only [split_crlf]
    split <;> simp

theorem join_crlf_cons (line : List Nat) (lines : List (List Nat)) (h : lines ≠ []) :
    join_crlf (line :: lines) = line ++ 13 :: 10 :: join_crlf lines := by
  cases lines with
  | nil => exact absurd rfl h
  | cons l2 rest => rfl

theorem join_crlf_head_tail (b : Nat) (lines : List (List Nat)) (h : lines ≠ []) :
    join_crlf ((b :: lines.headD []) :: lines.tail) = b :: join_crlf lines := by
  match lines, h with
  | [l], _ => rfl
  | l :: l2 :: rest, _ => rfl

theorem join_crlf_split_crlf : ∀ (n : Nat) (s : List Nat), s.length ≤ n →
    join_crlf (split_crlf s) = s := by
  intro n
  induction n with
  | zero =>
    intro s h
    match s, h with
    | [], _ => rfl
  | succ n ih =>
    intro s h
    match s, h with
    | [], _ => rfl
    | [b], _ => rfl
    | b :: c :: rest, h =>
      simp only [split_crlf]
      split
      next hbc =>
        rw [join_crlf_cons [] _ (split_crlf_ne_nil rest),
          ih rest (by simp at h; omega), hbc.1, hbc.2]
        rfl
      next hbc =>
        rw [join_crlf_head_tail b _ (split_crlf_ne_nil (c :: rest)),
          ih (c :: rest) (by simp at h ⊢; omega)]

theorem split_crlf_mem : ∀ (n : Nat) (s : List Nat), s.length ≤ n →
    ∀ line ∈ split_crlf s, ∀ x ∈ line, x ∈ s := by
  intro n
  induction n with
  | zero =>
    intro s h
    match s, h with
    | [], _ => simp [split_crlf]
  | succ n ih =>
    intro s h
    match s, h with
    | [], _ => simp [split_crlf]
    | [b], _ => simp [split_crlf]
    | b :: c :: rest, h =>
      intro line hline x hx
      simp only [split_crlf] at hline
      split at hline
      next hbc =>
        rcases List.mem_cons.mp hline with e | e
        · subst e; simp at hx
        · have := ih rest (by simp at h; omega) line e x hx
          simp [this]
      next hbc =>
        have ih2 := ih (c :: rest) (by simp at h ⊢; omega)
        cases hs : split_crlf (c :: rest) with
        | nil => exact absurd hs (split_crlf_ne_nil _)
        | cons l0 ls =>
          rw [hs] at hline ih2
          simp only [List.headD_cons, List.tail_cons] at hline
          rcases List.mem_cons.mp hline with e | e
          · subst e
            rcases List.mem_cons.mp hx with e2 | e2
            · subst e2; simp
            · exact List.mem_cons_of_mem _ (ih2 l0 (by simp) x e2)
          · exact List.mem_cons_of_mem _ (ih2 line (List.mem_cons_of_mem _ e) x hx)

theorem not_mem_join_crlf (c : Nat) (h13 : c ≠ 13) (h10 : c ≠ 10) (lines : List (List Nat))
    (h : ∀ line ∈ lines, c ∉ line) : c ∉ join_crlf lines := by
  induction lines with
  | nil => simp [join_crlf]
  | cons line lines ih =>
    cases lines with
    | nil => simpa [join_crlf] using h line (by simp)
    | cons l2 rest =>
      simp only [join_crlf, List.mem_append, List.mem_cons, not_or]
      refine ⟨h line (by simp), h13, h10, ?_⟩
      exact ih (fun x hx => h x (List.mem_cons_of_mem _ hx))

theorem dropWhile_append_stop (p : Nat → Bool) (l : List Nat) (x : Nat) (r : List Nat)
    (hx : p x = false) : (l ++ x :: r).dropWhile p = l.dropWhile p ++ x :: r := by
  induction l with
  | nil => simp [List.dropWhile_cons, hx]
  | cons b l ih =>
    simp only [List.cons_append, List.dropWhile_cons]
    split
    · exact ih
    · rfl

/-- One iteration of the loop of `headers_to_obj`, on a cursor at a name that `:` ends. -/
theorem headers_to_obj_loop_step (fuel : Nat) (pre rest : List Nat) (obj : JSObject)
    (h0 : 0 ∉ pre) (h58 : 58 ∉ pre) :
    headers_to_obj_loop (fuel + 1) (pre ++ 58 :: rest) obj =
      match strchr (rest.dropWhile (fun b => b = 32)) 13 with
      | none => obj
      | some j =>
        headers_to_obj_loop fuel ((rest.dropWhile (fun b => b = 32)).drop (j + 2))
          (JS_DefinePropertyValueStr obj pre
            (.string ((rest.dropWhile (fun b => b = 32)).take j))) := by
  rw [headers_to_obj_loop, if_neg (peek_append_ne_zero pre 58 rest h0 (by decide)),
    strchr_append_found 58 pre rest h0 h58]
  simp

theorem headers_to_obj_loop_end (fuel : Nat) (junk : List Nat) (obj : JSObject) :
    headers_to_obj_loop fuel (0 :: junk) obj = obj := by
  cases fuel with
  | zero => rfl
  | succ fuel => simp [headers_to_obj_loop, peek]

theorem headers_to_obj_loop_no_colon (fuel : Nat) (s junk : List Nat) (obj : JSObject)
    (h : 58 ∉ s) : headers_to_obj_loop fuel (s ++ 0 :: junk) obj = obj := by
  cases fuel with
  | zero => rfl
  | succ fuel =>
    rw [headers_to_obj_loop, strchr_append_zero 58 s junk (by decide) h]
    simp

/-- The loop of `headers_to_obj` on lines joined by `\r\n`, when no value holds a `\r`, no
line without `:` comes before a line with `:`, and the last line has no `:`. -/
theorem headers_to_obj_loop_lines (junk : List Nat) :
    ∀ (lines : List (List Nat)) (obj : JSObject) (fuel : Nat),
    (∀ line ∈ lines, 0 ∉ line) →
    (∀ line ∈ lines, 58 ∈ line → 13 ∉ text_after 58 line) →
    lines.Pairwise (fun a b => 58 ∈ b → 58 ∈ a) →
    (∀ line, lines.getLast? = some line → 58 ∉ line) →
    (join_crlf lines).length < fuel →
    headers_to_obj_loop fuel (join_crlf lines ++ 0 :: junk) obj =
      headers_spec_lines lines obj := by
  intro lines
  induction lines with
  | nil =>
    intro obj fuel _ _ _ _ _
    simp only [join_crlf, List.nil_append, headers_spec_lines]
    exact headers_to_obj_loop_end fuel junk obj
  | cons line lines ih =>
    intro obj fuel hz hcr hord hlast hfuel
    obtain ⟨hord1, hord2⟩ := List.pairwise_cons.mp hord
    have h0 := hz line (by simp)
    by_cases hco : 58 ∈ line
    · simp only [headers_spec_lines, hco, if_true]
      have hsplit := text_split 58 line hco
      have hpre0 : 0 ∉ text_before 58 line := fun e => h0 (text_before_subset _ _ _ e)
      have hpost0 : 0 ∉ text_after 58 line := fun e => h0 (text_after_subset _ _ _ e)
      have hpost13 := hcr line (by simp) hco
      obtain ⟨f, rfl⟩ : ∃ f, fuel = f + 1 := ⟨fuel - 1, by omega⟩
      cases lines with
      | nil => exact absurd hco (hlast line rfl)
      | cons l2 rest =>
        have hM : join_crlf (line :: l2 :: rest) ++ 0 :: junk =
            text_before 58 line ++ 58 ::
              (text_after 58 line ++ 13 :: 10 :: (join_crlf (l2 :: rest) ++ 0 :: junk)) := by
          simp only [join_crlf]
          conv_lhs => rw [hsplit]
          simp
        have hlen : (join_crlf (l2 :: rest)).length < f := by
          rw [join_crlf_cons line (l2 :: rest) (by simp)] at hfuel
          simp at hfuel
          omega
        have htrim0 : 0 ∉ (text_after 58 line).dropWhile (fun b => b = 32) :=
          fun e => hpost0 ((List.dropWhile_sublist _).subset e)
        have htrim13 : 13 ∉ (text_after 58 line).dropWhile (fun b => b = 32) :=
          fun e => hpost13 ((List.dropWhile_sublist _).subset e)
        rw [hM, headers_to_obj_loop_step f _ _ obj hpre0 (text_before_not_mem 58 line),
          dropWhile_append_stop _ _ 13 _ (by decide),
          strchr_append_found 13 _ _ htrim0 htrim13]
        simp only [List.take_left]
        have hd : List.drop (((text_after 58 line).dropWhile (fun b => b = 32)).length + 2)
            ((text_after 58 line).dropWhile (fun b => b = 32) ++
              13 :: 10 :: (join_crlf (l2 :: rest) ++ 0 :: junk)) =
            join_crlf (l2 :: rest) ++ 0 :: junk := by
          rw [List.drop_append]
          simp
        rw [hd]
        exact ih _ f (fun x hx => hz x (List.mem_cons_of_mem _ hx))
          (fun x hx => hcr x (List.mem_cons_of_mem _ hx)) hord2
          (fun x hx => hlast x (by simpa [List.getLast?_cons_cons] using hx)) hlen
    · simp only [headers_spec_lines, hco, if_false]
      apply headers_to_obj_loop_no_colon
      apply not_mem_join_crlf 58 (by decide) (by decide)
      intro x hx
      rcases List.mem_cons.mp hx with e | e
      · subst e; exact hco
      · exact fun h => hco (hord1 x e h)

/-! ## `headers_helper` and the claims on headers -/

/-- What the loop of `headers_helper` leaves on a map of strings: the lines `Key: Value`,
each followed by `\r\n`, appended to the string it starts from. -/
theorem headers_helper_loop_eq : ∀ (m : List (List Nat × List Nat)) (cnt : Nat)
    (acc : List Nat), (∀ kv ∈ m, 0 ∉ kv.1 ∧ 0 ∉ kv.2) →
    headers_helper_loop (string_map m) cnt (some acc) =
      .ok (some (acc ++ join_crlf (m.map header_line ++ [[]]))) := by
  intro m
  induction m with
  | nil =>
    intro cnt acc _
    simp [string_map, headers_helper_loop, join_crlf]
  | cons kv m ih =>
    intro cnt acc h
    obtain ⟨hk, hv⟩ := h kv (by simp)
    have ihm := fun c a => ih c a (fun x hx => h x (List.mem_cons_of_mem _ hx))
    have hcons : string_map (kv :: m) = (kv.1, JSValue.string kv.2) :: string_map m := rfl
    rw [hcons, headers_helper_loop]
    simp only [strcat, c_str_of_not_mem _ hk, c_str_of_not_mem _ hv]
    rw [ihm, List.map_cons, List.cons_append, join_crlf_cons _ _ (by simp)]
    simp [header_line, c_str]

theorem headers_helper_eq (m : List (List Nat × List Nat)) (hne : m ≠ [])
    (h : ∀ kv ∈ m, 0 ∉ kv.1 ∧ 0 ∉ kv.2) :
    headers_helper (string_map m) none =
      .ok (some (join_crlf (m.map header_line ++ [[]]))) := by
  cases m with
  | nil => exact absurd rfl hne
  | cons kv m =>
    obtain ⟨hk, hv⟩ := h kv (by simp)
    have hcons : string_map (kv :: m) = (kv.1, JSValue.string kv.2) :: string_map m := rfl
    rw [headers_helper, hcons, headers_helper_loop]
    simp only [strcat, c_str_of_not_mem _ hk, c_str_of_not_mem _ hv]
    rw [headers_helper_loop_eq m _ _ (fun x hx => h x (List.mem_cons_of_mem _ hx)),
      List.map_cons, List.cons_append, join_crlf_cons _ _ (by simp)]
    simp [header_line, c_str]

theorem define_new (obj : JSObject) (name : List Nat) (val : JSValue)
    (h : ∀ kv ∈ obj, kv.1 ≠ name) :
    JS_DefinePropertyValueStr obj name val = obj ++ [(name, val)] := by
  unfold JS_DefinePropertyValueStr
  rw [if_neg]
  simp only [List.any_eq_true, decide_eq_true_eq, not_exists, not_and]
  exact fun kv hkv => h kv hkv

theorem dropWhile_space_id (v : List Nat) (h : v.head? ≠ some 32) :
    v.dropWhile (fun b => b = 32) = v := by
  cases v with
  | nil => rfl
  | cons b v =>
    have hb : b ≠ 32 := by simpa using h
    simp [List.dropWhile_cons, hb]

/-- The specification's parse of the lines `Key: Value` gives back the pairs. -/
theorem headers_spec_lines_header : ∀ (m : List (List Nat × List Nat)) (obj : JSObject),
    (m.map Prod.fst).Nodup → (∀ kv ∈ m, 58 ∉ kv.1 ∧ kv.2.head? ≠ some 32) →
    (∀ kv ∈ m, ∀ p ∈ obj, p.1 ≠ kv.1) →
    headers_spec_lines (m.map header_line ++ [[]]) obj = obj ++ string_map m := by
  intro m
  induction m with
  | nil =>
    intro obj _ _ _
    simp [headers_spec_lines, string_map]
  | cons kv m ih =>
    intro obj hnd h hdis
    obtain ⟨hk, hv⟩ := h kv (by simp)
    have hnd' : kv.1 ∉ m.map Prod.fst ∧ (m.map Prod.fst).Nodup := by
      rw [List.map_cons] at hnd
      exact List.nodup_cons.mp hnd
    have hmem : 58 ∈ header_line kv := by simp [header_line]
    have hb : text_before 58 (header_line kv) = kv.1 := text_before_append 58 _ _ hk
    have ha : text_after 58 (header_line kv) = 32 :: kv.2 := text_after_append 58 _ _ hk
    rw [List.map_cons, List.cons_append, headers_spec_lines, if_pos hmem, hb, ha]
    have htrim : (32 :: kv.2).dropWhile (fun b => b = 32) = kv.2 := by
      simp only [List.dropWhile_cons, decide_True, if_true]
      exact dropWhile_space_id kv.2 hv
    rw [htrim, define_new obj kv.1 _ (fun p hp => hdis kv (by simp) p hp)]
    rw [ih _ hnd'.2 (fun x hx => h x (List.mem_cons_of_mem _ hx))]
    · simp [string_map]
    · intro x hx p hp
      rcases List.mem_append.mp hp with e | e
      · exact hdis x (List.mem_cons_of_mem _ hx) p e
      · simp at e
        subst e
        intro heq
        apply hnd'.1
        simp only [List.mem_map]
        exact ⟨x, hx, heq.symm⟩

theorem pairwise_of_all (P : List Nat → Prop) (L : List (List Nat)) (h : ∀ a ∈ L, P a)
    (Q : List Nat → Prop) : L.Pairwise (fun a b => Q b → P a) := by
  induction L with
  | nil => exact List.Pairwise.nil
  | cons a L ih =>
    refine List.Pairwise.cons (fun b _ _ => h a (by simp)) ?_
    exact ih (fun x hx => h x (List.mem_cons_of_mem _ hx))

/-- C9, as stated, fails on the map `a -> " b"`: `headers_to_obj` drops the spaces that
follow the colon, those of the value included, so the map read back is `a -> "b"`. -/
theorem headers_roundtrip_counterexample :
    (headers_helper (string_map [([97], [32, 98])]) none).map
        (fun r => headers_to_obj (r.map (fun str => str ++ [0]))) =
      .ok (some (string_map [([97], [98])])) ∧
    string_map [([97], [98])] ≠ string_map [([97], [32, 98])] := by
  decide

/-- C9, amended. For every map `m` that is not empty, with unique keys, whose keys hold no
`:` and whose values hold no `\r` and do not start with a space, `headers_to_obj` applied to
the block `headers_helper` leaves (followed in memory by its zero byte and anything else)
gives back `m`, pairs and order. -/
theorem headers_roundtrip (m : List (List Nat × List Nat)) (junk : List Nat) (hne : m ≠ [])
    (hkeys : (m.map Prod.fst).Nodup)
    (hk : ∀ kv ∈ m, 0 ∉ kv.1 ∧ 58 ∉ kv.1)
    (hv : ∀ kv ∈ m, 0 ∉ kv.2 ∧ 13 ∉ kv.2 ∧ kv.2.head? ≠ some 32) :
    (headers_helper (string_map m) none).map
        (fun r => headers_to_obj (r.map (fun str => str ++ 0 :: junk))) =
      .ok (some (string_map m)) := by
  rw [headers_helper_eq m hne (fun kv h => ⟨(hk kv h).1, (hv kv h).1⟩)]
  simp only [Except.map, Option.map, headers_to_obj]
  congr 2
  have hlines : ∀ line ∈ m.map header_line ++ [[]],
      0 ∉ line ∧ (58 ∈ line → 13 ∉ text_after 58 line) := by
    intro line hl
    rcases List.mem_append.mp hl with e | e
    · obtain ⟨kv, hkv, rfl⟩ := List.mem_map.mp e
      refine ⟨?_, fun _ => ?_⟩
      · simp only [header_line, List.mem_append, List.mem_cons, not_or]
        exact ⟨(hk kv hkv).1, by decide, by decide, (hv kv hkv).1⟩
      · have ha : text_after 58 (header_line kv) = 32 :: kv.2 :=
          text_after_append 58 _ _ (hk kv hkv).2
        rw [ha]
        simp only [List.mem_cons, not_or]
        exact ⟨by decide, (hv kv hkv).2.1⟩
    · simp at e
      subst e
      simp
  have hord : (m.map header_line ++ [[]]).Pairwise (fun a b => 58 ∈ b → 58 ∈ a) := by
    rw [List.pairwise_append]
    refine ⟨pairwise_of_all (fun a => 58 ∈ a) _ ?_ _, List.pairwise_singleton _ _, ?_⟩
    · intro a ha
      obtain ⟨kv, _, rfl⟩ := List.mem_map.mp ha
      simp [header_line]
    · intro a _ b hb
      simp at hb
      subst hb
      simp
  rw [headers_to_obj_loop_lines junk _ [] _ (fun l hl => (hlines l hl).1)
    (fun l hl => (hlines l hl).2) hord (by simp) (by simp; omega)]
  rw [headers_spec_lines_header m [] hkeys (fun kv h => ⟨(hk kv h).2, (hv kv h).2.2⟩)
    (by simp)]
  rfl

theorem headers_roundtrip_witness :
    (headers_helper (string_map [([97, 13], [49, 58, 32]), ([98], [])]) none).map
        (fun r => headers_to_obj (r.map (fun str => str ++ 0 :: [58, 13]))) =
      .ok (some (string_map [([97, 13], [49, 58, 32]), ([98], [])])) :=
  headers_roundtrip [([97, 13], [49, 58, 32]), ([98], [])] [58, 13] (by decide) (by decide)
    (by decide) (by decide)

/-- C10, as stated, fails on `a:b`: the specification gives the pair `a -> b`, while
`headers_to_obj` finds no `\r` after the value and gives no pair. -/
theorem headers_to_obj_counterexample :
    headers_spec [97, 58, 98] = string_map [([97], [98])] ∧
      headers_to_obj (some ([97, 58, 98] ++ [0])) = some [] := by
  decide

/-- C10, amended. For every header block `s` in which every `\r` belongs to a `\r\n` (no
line holds a `\r`), no line without `:` comes before a line with `:`, and the last line has
no `:` (every line with `:` is ended by `\r\n`), `headers_to_obj` gives what splitting `s`
on `\r\n` and processing the lines in order gives: a line with `:` gives the pair (text
before its first `:`, text after it without its leading spaces), and the first line
without `:` ends the parse. -/
theorem headers_to_obj_eq_spec (s junk : List Nat) (h0 : 0 ∉ s)
    (hcr : ∀ line ∈ split_crlf s, 13 ∉ line)
    (hord : (split_crlf s).Pairwise (fun a b => 58 ∈ b → 58 ∈ a))
    (hlast : ∀ line, (split_crlf s).getLast? = some line → 58 ∉ line) :
    headers_to_obj (some (s ++ 0 :: junk)) = some (headers_spec s) := by
  simp only [headers_to_obj, headers_spec]
  congr 1
  have hmem := split_crlf_mem s.length s (Nat.le_refl _)
  have hjoin := join_crlf_split_crlf s.length s (Nat.le_refl _)
  have := headers_to_obj_loop_lines junk (split_crlf s) []
    ((s ++ 0 :: junk).length + 1)
    (fun line hl e => h0 (hmem line hl 0 e))
    (fun line hl _ e => hcr line hl (text_after_subset _ _ _ e)) hord hlast
    (by rw [hjoin]; simp; omega)
  rw [hjoin] at this
  exact this

theorem headers_to_obj_eq_spec_witness :
    headers_to_obj (some ([97, 58, 32, 32, 49, 58, 13, 10, 98, 58, 13, 10, 99] ++
        0 :: [58, 13])) =
      some (headers_spec [97, 58, 32, 32, 49, 58, 13, 10, 98, 58, 13, 10, 99]) :=
  headers_to_obj_eq_spec [97, 58, 32, 32, 49, 58, 13, 10, 98, 58, 13, 10, 99] [58, 13]
    (by decide) (by decide) (by decide) (by decide)

/-! ## Further inputs on which code and specification part -/

/-- For the empty map `params_helper` and `headers_helper` leave the null pointer they
started from, and both parsers return `undefined` for a null pointer. -/
theorem empty_map_gives_undefined :
    params_helper (fun _ _ => 0) [] none = .ok none ∧ params_to_obj none = none ∧
      headers_helper [] none = .ok none ∧ headers_to_obj none = none := by
  decide

/-- On `a:b\rc\r\n` the value ends at the lone `\r` and the cursor then skips the `c`:
`headers_to_obj` gives `a -> b`, the specification `a -> b\rc`. -/
theorem headers_to_obj_lone_cr :
    headers_to_obj (some ([97, 58, 98, 13, 99, 13, 10] ++ [0])) =
        some (string_map [([97], [98])]) ∧
      headers_spec [97, 58, 98, 13, 99, 13, 10] = string_map [([97], [98, 13, 99])] := by
  decide

/-- On `x\r\na:b\r\n` the name runs across the line end: `headers_to_obj` gives
`x\r\na -> b`, the specification stops at the line `x` with no pair. -/
theorem headers_to_obj_across_lines :
    headers_to_obj (some ([120, 13, 10, 97, 58, 98, 13, 10] ++ [0])) =
        some (string_map [([120, 13, 10, 97], [98])]) ∧
      headers_spec [120, 13, 10, 97, 58, 98, 13, 10] = [] := by
  decide

/-! ## The claim on `headers_helper` -/

theorem join_crlf_header_lines (m : List (List Nat × List Nat)) :
    join_crlf (m.map header_line ++ [[]]) = headers_wire m := by
  induction m with
  | nil => rfl
  | cons kv m ih =>
    rw [List.map_cons, List.cons_append, join_crlf_cons _ _ (by simp), ih]
    simp [headers_wire, header_line]

theorem headers_helper_loop_not_string : ∀ (tab : JSObject) (cnt : Nat)
    (acc : Option (List Nat)), (∃ kv ∈ tab, JS_IsString kv.2 = false) →
    headers_helper_loop tab cnt acc =
      .error (.TypeError "Header\x27s value must be a string") := by
  intro tab
  induction tab with
  | nil =>
    intro cnt acc h
    obtain ⟨kv, hkv, _⟩ := h
    simp at hkv
  | cons p tab ih =>
    intro cnt acc h
    obtain ⟨atom, val⟩ := p
    cases val with
    | string s =>
      have h2 : ∃ kv ∈ tab, JS_IsString kv.2 = false := by
        obtain ⟨kv, hkv, hs⟩ := h
        rcases List.mem_cons.mp hkv with e | e
        · subst e
          simp [JS_IsString] at hs
        · exact ⟨kv, e, hs⟩
      simp only [headers_helper_loop]
      exact ih _ _ h2
    | undefined => rfl
    | number n => rfl
    | object r => rfl
    | function r => rfl

/-- C11. For every headers map with string values, `headers_helper`, started from a null
pointer, leaves exactly the concatenation, in order, of key, `: `, value and `\r\n` for
each pair, byte for byte (for the empty map it appends nothing and the pointer stays null);
and for every map with a value that is not a string it throws a TypeError. -/
theorem headers_helper_wire (m : List (List Nat × List Nat)) (tab : JSObject)
    (hm : ∀ kv ∈ m, 0 ∉ kv.1 ∧ 0 ∉ kv.2)
    (htab : ∃ kv ∈ tab, JS_IsString kv.2 = false) :
    headers_helper (string_map m) none =
        .ok (if m = [] then none else some (headers_wire m)) ∧
      headers_helper tab none = .error (.TypeError "Header\x27s value must be a string") := by
  refine ⟨?_, headers_helper_loop_not_string tab 0 none htab⟩
  by_cases hne : m = []
  · subst hne
    rfl
  · rw [if_neg hne, headers_helper_eq m hne hm, join_crlf_header_lines]

theorem headers_helper_wire_witness :
    headers_helper (string_map [([97], [49, 37]), ([98, 32], [])]) none =
        .ok (if [([97], [49, 37]), ([98, 32], ([] : List Nat))] = [] then none
          else some (headers_wire [([97], [49, 37]), ([98, 32], [])])) ∧
      headers_helper [([97], .string [49]), ([98], .number 2)] none =
        .error (.TypeError "Header\x27s value must be a string") :=
  headers_helper_wire [([97], [49, 37]), ([98, 32], [])]
    [([97], .string [49]), ([98], .number 2)] (by decide)
    ⟨([98], .number 2), by decide, by decide⟩

/-! ## The claims on the per-request pipeline -/

/-- C12 fails in the code. `evhttp_cmd_type_to_str` finds in `i` the position of the bit of
the command type and then returns `evhttp_cmd_str[type]`: GET (1) is named `POST`, POST (2)
`HEAD`, HEAD (4) `DELETE`, and PUT (8), DELETE (16), OPTIONS (32), TRACE (64), CONNECT (128)
and PATCH (256) read outside the table of eight names; the request built for a GET has
the method `POST`. Indexed by `i` the table gives GET its own name. -/
theorem evhttp_cmd_type_to_str_wrong_entry :
    evhttp_cmd_type_to_str 1 = .entry "POST" ∧
    evhttp_cmd_type_to_str 2 = .entry "HEAD" ∧
    evhttp_cmd_type_to_str 4 = .entry "DELETE" ∧
    evhttp_cmd_type_to_str 8 = .out_of_bounds 8 ∧
    evhttp_cmd_type_to_str 16 = .out_of_bounds 16 ∧
    evhttp_cmd_type_to_str 32 = .out_of_bounds 32 ∧
    evhttp_cmd_type_to_str 64 = .out_of_bounds 64 ∧
    evhttp_cmd_type_to_str 128 = .out_of_bounds 128 ∧
    evhttp_cmd_type_to_str 256 = .out_of_bounds 256 ∧
    callback_helper_method (some [47]) 1 = some ([47], .entry "POST") ∧
    evhttp_cmd_str[evhttp_cmd_type_loop 1 evhttp_cmd_str.length
      (evhttp_cmd_str.length + 1) 0]? = some "GET" := by
  decide

/-- The position the loop of `evhttp_cmd_type_to_str` finds is the one of the verb for the
eight verbs of the table, and is outside the table for PATCH. -/
theorem evhttp_cmd_type_loop_positions :
    (List.range 9).map (fun k => evhttp_cmd_type_loop (1 <<< k) evhttp_cmd_str.length
      (evhttp_cmd_str.length + 1) 0) = List.range 9 := by
  decide

/-- When the headers of the response have no property named `0`, the loop of
`callback_helper` hands nothing to `evhttp_add_header`. -/
theorem callback_helper_headers_none (conv : JSValue → List Nat) (headers : JSObject)
    (fuel : Nat) (h : get_property headers (uint32_name 0) = .undefined) :
    callback_helper_headers conv headers fuel 0 [] = [] := by
  cases fuel with
  | zero => rfl
  | succ fuel => simp [callback_helper_headers, h, JS_IsUndefined]

/-- C13 fails in the code. For the headers map `Content-Type -> text/plain` the loop of
`callback_helper` asks for the property named `0`, finds none and stops: no pair is handed
to `evhttp_add_header`. A pair is attached only when its key is also the value of an
integer property, as in `0 -> a, a -> 1`. -/
theorem callback_helper_headers_map_dropped :
    callback_helper_headers (fun _ => c_lit "undefined")
        (string_map [(c_lit "Content-Type", c_lit "text/plain")]) 2 0 [] = [] ∧
      callback_helper_headers (fun _ => c_lit "undefined")
        (string_map [([48], [97]), ([97], [49])]) 3 0 [] = [([97], [49])] := by
  decide

/-! ## The claims on fetch -/

theorem js_realloc_length (fresh : Nat → Nat) (old : Option (List Nat)) (size : Nat) :
    (js_realloc fresh old size).length = size := by
  simp [js_realloc]

/-- After `write_callback` the body is the chunk of that call and a zero byte, whatever it
was before. -/
theorem write_callback_body (fresh : Nat → Nat) (chunk : List Nat) (res : http_res) :
    (write_callback fresh chunk 1 chunk.length res).2.body = some (chunk ++ [0]) := by
  have hlen := js_realloc_length fresh res.body (chunk.length + 1)
  have hd : ((js_realloc fresh res.body (chunk.length + 1)).drop chunk.length).length = 1 := by
    rw [List.length_drop, hlen]
    omega
  obtain ⟨x, hx⟩ := List.length_eq_one.mp hd
  simp only [write_callback, Nat.one_mul, memcpy, List.take_length, hx]
  congr 1
  rw [List.set_append_right _ _ (Nat.le_refl _)]
  simp

theorem write_callback_fold_body (fresh : Nat → Nat) (chunks : List (List Nat))
    (last : List Nat) (res : http_res) :
    ((chunks ++ [last]).foldl
      (fun res chunk => (write_callback fresh chunk 1 chunk.length res).2) res).body =
      some (last ++ [0]) := by
  rw [List.foldl_append]
  exact write_callback_body fresh last _

/-- After a fetch that returns a response, in which the transport delivered the chunks
`chunks` and then `last`, the body of the response is `last` alone, with its zero byte. -/
theorem http_fetch_body_last_chunk (heap : JSHeap) (malloc_heap : Nat → Nat → Nat)
    (fresh : Nat → Nat) (get_req : JSValue → Option http_req)
    (curl_easy_perform : CurlOptions → CurlResult) (params_str0 headers_str0 : Uninit)
    (argv : List JSValue) (chunks : List (List Nat)) (last : List Nat)
    (locals : FetchLocals) (res : http_res)
    (hsetup : http_fetch_setup heap malloc_heap get_req params_str0 headers_str0 argv =
      .done (.ok locals))
    (hchunks : (curl_easy_perform locals.curl).body_chunks = chunks ++ [last])
    (hres : http_fetch heap malloc_heap fresh get_req curl_easy_perform params_str0
      headers_str0 argv = .done (.ok res)) :
    res.body = some (last ++ [0]) := by
  simp only [http_fetch, hsetup, hchunks] at hres
  split at hres
  · simp at hres
  · split at hres
    · split at hres <;> simp at hres
    · split at hres
      · simp only [Run.done.injEq, Except.ok.injEq] at hres
        rw [← hres]
        exact write_callback_fold_body fresh chunks last _
      · simp at hres

/-- C14 fails in the code. A fetch in which the transport delivers the chunks `ab` and `cd`
returns, when its locals were found null, a response whose body is `cd`, not `abcd`:
`write_callback` reallocates the body to the size of the chunk and copies the chunk to its
start at every call, as the same two calls show on the struct alone. -/
theorem http_fetch_body_not_accumulated :
    http_fetch (fun _ => []) (fun _ _ => 0) (fun _ => 0)
        (fun _ => some { method := none, uri := some (c_lit "http://example.test/x"),
                         body := none, params := .undefined, headers := .undefined })
        (fun _ => { code := 0, strerror := "No error", response_code := 200,
                    body_chunks := [[97, 98], [99, 100]] })
        .null .null [.object 0] =
      .done (.ok { status := 200, reason := none, body := some [99, 100, 0],
                   headers := .undefined }) ∧
    (write_callback (fun _ => 0) [99, 100] 1 2
        (write_callback (fun _ => 0) [97, 98] 1 2
          { status := 0, reason := none, body := none, headers := .undefined }).2).2.body =
      some [99, 100, 0] := by
  decide

/-- When the transfer fails, whatever was found in the locals, `http_fetch` either throws the
TypeError of `curl_easy_perform failed` or hands a wild pointer to `js_free`; it returns no
response. -/
theorem http_fetch_failure_any_locals (heap : JSHeap) (malloc_heap : Nat → Nat → Nat)
    (fresh : Nat → Nat) (get_req : JSValue → Option http_req)
    (curl_easy_perform : CurlOptions → CurlResult) (params_str0 headers_str0 : Uninit)
    (argv : List JSValue) (locals : FetchLocals)
    (hsetup : http_fetch_setup heap malloc_heap get_req params_str0 headers_str0 argv =
      .done (.ok locals))
    (hfail : (curl_easy_perform locals.curl).code ≠ 0) :
    http_fetch heap malloc_heap fresh get_req curl_easy_perform params_str0 headers_str0
        argv = .undefined ∨
      http_fetch heap malloc_heap fresh get_req curl_easy_perform params_str0 headers_str0
        argv =
      .done (.error (.TypeError
        ("curl_easy_perform failed: " ++ (curl_easy_perform locals.curl).strerror))) := by
  simp only [http_fetch, hsetup]
  split
  · exact Or.inl rfl
  · cases js_free locals.params_str <;> cases js_free locals.headers_str <;> simp

/-- C16. A response constructed with no seed has status 200 and no reason, body or
headers, and the snapshot `get()` returns has the single entry `status = 200`. -/
theorem http_res_ctor_default (heap : JSHeap) (proto : JSValue)
    (hproto : JS_IsObject proto = true) :
    http_res_ctor heap proto [] =
        .ok { status := 200, reason := none, body := none, headers := .undefined } ∧
      http_res_get { status := 200, reason := none, body := none, headers := .undefined } =
        [(c_lit "status", .number 200)] ∧
      get_property (http_res_get
          { status := 200, reason := none, body := none, headers := .undefined })
        (c_lit "status") = .number 200 := by
  refine ⟨?_, by decide, by decide⟩
  simp [http_res_ctor, hproto]

theorem http_res_ctor_default_witness :
    http_res_ctor (fun _ => []) (.object 3) [] =
        .ok { status := 200, reason := none, body := none, headers := .undefined } ∧
      http_res_get { status := 200, reason := none, body := none, headers := .undefined } =
        [(c_lit "status", .number 200)] ∧
      get_property (http_res_get
          { status := 200, reason := none, body := none, headers := .undefined })
        (c_lit "status") = .number 200 :=
  http_res_ctor_default (fun _ => []) (.object 3) (by decide)

/-- C17. For every response and every seed object whose `status` property is present and is
not a number, `set` throws a TypeError and leaves the response as it was, its status
included. -/
theorem http_res_set_status_not_number (heap : JSHeap) (res : http_res) (seed : JSValue)
    (rest : List JSValue) (hseed : JS_IsObject seed = true)
    (hpresent : JS_IsUndefined (JS_GetPropertyStr heap seed (c_lit "status")) = false)
    (hnot : JS_IsNumber (JS_GetPropertyStr heap seed (c_lit "status")) = false) :
    http_res_set heap res (seed :: rest) =
        (.error (.TypeError "response([val]), val.status must be number"), res) ∧
      (http_res_set heap res (seed :: rest)).2.status = res.status := by
  have h : http_res_set heap res (seed :: rest) =
      (.error (.TypeError "response([val]), val.status must be number"), res) := by
    simp only [http_res_set, hseed, hpresent]
    cases hv : JS_GetPropertyStr heap seed (c_lit "status") with
    | number n => simp [hv, JS_IsNumber] at hnot
    | undefined => rfl
    | string s => rfl
    | object r => rfl
    | function r => rfl
  exact ⟨h, by rw [h]⟩

theorem http_res_set_status_not_number_witness :
    http_res_set (fun _ => [(c_lit "status", .string (c_lit "201")), (c_lit "body", .string [97])])
        { status := 404, reason := none, body := none, headers := .undefined }
        ([.object 1] : List JSValue) =
        (.error (.TypeError "response([val]), val.status must be number"),
          { status := 404, reason := none, body := none, headers := .undefined }) ∧
      (http_res_set (fun _ => [(c_lit "status", .string (c_lit "201")),
          (c_lit "body", .string [97])])
        { status := 404, reason := none, body := none, headers := .undefined }
        ([.object 1] : List JSValue)).2.status =
        ({ status := 404, reason := none, body := none, headers := .undefined } : http_res).status :=
  http_res_set_status_not_number _ _ (.object 1) [] (by decide) (by decide) (by decide)

/-! ## The claim on `set` -/

theorem http_req_set_str_ok (v : JSValue) (old new : Option (List Nat))
    (h : http_req_set_str v old = .ok new) : str_field_updated v old new := by
  cases v with
  | undefined =>
    simp only [http_req_set_str, Except.ok.injEq] at h
    simp [str_field_updated, h]
  | string s =>
    simp only [http_req_set_str, Except.ok.injEq] at h
    simp [str_field_updated, ← h]
  | number n => simp [http_req_set_str] at h
  | object r => simp [http_req_set_str] at h
  | function r => simp [http_req_set_str] at h

theorem http_req_set_js_ok (v old new : JSValue)
    (h : http_req_set_js v old = .ok new) : js_field_updated v old new := by
  unfold http_req_set_js at h
  cases v with
  | undefined =>
    simp only [JS_IsUndefined, if_true, Except.ok.injEq] at h
    simp [js_field_updated, h]
  | string s => simp [JS_IsUndefined, JS_IsObject] at h
  | number n => simp [JS_IsUndefined, JS_IsObject] at h
  | object r =>
    simp only [JS_IsUndefined, JS_IsObject, if_true, Bool.false_eq_true, if_false,
      Except.ok.injEq] at h
    subst h
    simp [js_field_updated]
  | function r =>
    simp only [JS_IsUndefined, JS_IsObject, if_true, Bool.false_eq_true, if_false,
      Except.ok.injEq] at h
    subst h
    simp [js_field_updated]

theorem JS_ToInt32_in_range (n : Int) (h : -2147483648 ≤ n ∧ n < 2147483648) :
    JS_ToInt32 n = n := by
  unfold JS_ToInt32
  rw [Int.emod_eq_of_lt (by omega) (by omega)]
  omega

/-- What a successful `http_req_set` does to each field. -/
theorem http_req_set_fields (heap : JSHeap) (req : http_req) (seed : JSValue)
    (rest : List JSValue) (h : (http_req_set heap req (seed :: rest)).1 = .ok ()) :
    str_field_updated (JS_GetPropertyStr heap seed (c_lit "method")) req.method
        (http_req_set heap req (seed :: rest)).2.method ∧
      str_field_updated (JS_GetPropertyStr heap seed (c_lit "uri")) req.uri
        (http_req_set heap req (seed :: rest)).2.uri ∧
      str_field_updated (JS_GetPropertyStr heap seed (c_lit "body")) req.body
        (http_req_set heap req (seed :: rest)).2.body ∧
      js_field_updated (JS_GetPropertyStr heap seed (c_lit "params")) req.params
        (http_req_set heap req (seed :: rest)).2.params ∧
      js_field_updated (JS_GetPropertyStr heap seed (c_lit "headers")) req.headers
        (http_req_set heap req (seed :: rest)).2.headers := by
  unfold http_req_set at h ⊢
  cases hobj : JS_IsObject seed
  · simp [hobj] at h
  · simp only [hobj, Bool.not_true, Bool.false_eq_true, if_false] at h ⊢
    cases h0 : http_req_set_str (JS_GetPropertyStr heap seed (c_lit "method")) req.method with
    | error e => simp [h0] at h
    | ok f0 =>
    cases h1 : http_req_set_str (JS_GetPropertyStr heap seed (c_lit "uri")) req.uri with
    | error e => simp [h0, h1] at h
    | ok f1 =>
    cases h2 : http_req_set_str (JS_GetPropertyStr heap seed (c_lit "body")) req.body with
    | error e => simp [h0, h1, h2] at h
    | ok f2 =>
    cases h3 : http_req_set_js (JS_GetPropertyStr heap seed (c_lit "params")) req.params with
    | error e => simp [h0, h1, h2, h3] at h
    | ok f3 =>
    cases h4 : http_req_set_js (JS_GetPropertyStr heap seed (c_lit "headers")) req.headers with
    | error e => simp [h0, h1, h2, h3, h4] at h
    | ok f4 =>
      simp only [h0, h1, h2, h3, h4]
      exact ⟨http_req_set_str_ok _ _ _ h0, http_req_set_str_ok _ _ _ h1,
        http_req_set_str_ok _ _ _ h2, http_req_set_js_ok _ _ _ h3,
        http_req_set_js_ok _ _ _ h4⟩

/-- What a successful `http_res_set` does to each field. -/
theorem http_res_set_fields (heap : JSHeap) (res : http_res) (seed : JSValue)
    (rest : List JSValue) (h : (http_res_set heap res (seed :: rest)).1 = .ok ()) :
    status_updated (JS_GetPropertyStr heap seed (c_lit "status")) res.status
        (http_res_set heap res (seed :: rest)).2.status ∧
      str_field_updated (JS_GetPropertyStr heap seed (c_lit "reason")) res.reason
        (http_res_set heap res (seed :: rest)).2.reason ∧
      str_field_updated (JS_GetPropertyStr heap seed (c_lit "body")) res.body
        (http_res_set heap res (seed :: rest)).2.body ∧
      js_field_updated (JS_GetPropertyStr heap seed (c_lit "headers")) res.headers
        (http_res_set heap res (seed :: rest)).2.headers := by
  unfold http_res_set at h ⊢
  cases hobj : JS_IsObject seed
  · simp [hobj] at h
  · simp only [hobj, Bool.not_true, Bool.false_eq_true, if_false] at h ⊢
    generalize JS_GetPropertyStr heap seed (c_lit "status") = v1 at h ⊢
    generalize JS_GetPropertyStr heap seed (c_lit "reason") = v2 at h ⊢
    generalize JS_GetPropertyStr heap seed (c_lit "body") = v3 at h ⊢
    generalize JS_GetPropertyStr heap seed (c_lit "headers") = v4 at h ⊢
    have hr := JS_ToInt32_in_range
    cases v1 <;> cases v2 <;> cases v3 <;> cases v4 <;>
      simp [JS_IsUndefined, JS_IsObject, status_updated, str_field_updated,
        js_field_updated] at h ⊢ <;>
      exact fun h1 h2 => hr _ ⟨h1, h2⟩

/-- C18, as stated, fails on the status: `set` with the seed `status = 4294967496` succeeds
and leaves the status 200, the seed's number modulo 2^32. -/
theorem http_res_set_status_counterexample :
    (http_res_set (fun _ => [(c_lit "status", .number 4294967496)])
        { status := 404, reason := none, body := none, headers := .undefined }
        [.object 1]).1 = .ok () ∧
      (http_res_set (fun _ => [(c_lit "status", .number 4294967496)])
        { status := 404, reason := none, body := none, headers := .undefined }
        [.object 1]).2.status = 200 ∧
      ¬ status_updated_spec (.number 4294967496) 404 200 := by
  refine ⟨by decide, by decide, ?_⟩
  simp [status_updated_spec]

/-- C18, amended. For `http_req_set` and `http_res_set`, from every state of the object and
for every seed on which the call succeeds: a string or object field whose property is
present in the seed holds the seed's value after the call, the status holds the seed's
number converted to a 32-bit integer (the number itself when it is in that range), and a
field whose property is absent holds the value it had before the call. The state before
the call is any state, so this holds for every call of a sequence. -/
theorem set_updates_present_fields_only (heap : JSHeap) (req : http_req) (res : http_res)
    (seed : JSValue) (rest : List JSValue) :
    ((http_req_set heap req (seed :: rest)).1 = .ok () →
      str_field_updated (JS_GetPropertyStr heap seed (c_lit "method")) req.method
          (http_req_set heap req (seed :: rest)).2.method ∧
        str_field_updated (JS_GetPropertyStr heap seed (c_lit "uri")) req.uri
          (http_req_set heap req (seed :: rest)).2.uri ∧
        str_field_updated (JS_GetPropertyStr heap seed (c_lit "body")) req.body
          (http_req_set heap req (seed :: rest)).2.body ∧
        js_field_updated (JS_GetPropertyStr heap seed (c_lit "params")) req.params
          (http_req_set heap req (seed :: rest)).2.params ∧
        js_field_updated (JS_GetPropertyStr heap seed (c_lit "headers")) req.headers
          (http_req_set heap req (seed :: rest)).2.headers) ∧
    ((http_res_set heap res (seed :: rest)).1 = .ok () →
      status_updated (JS_GetPropertyStr heap seed (c_lit "status")) res.status
          (http_res_set heap res (seed :: rest)).2.status ∧
        str_field_updated (JS_GetPropertyStr heap seed (c_lit "reason")) res.reason
          (http_res_set heap res (seed :: rest)).2.reason ∧
        str_field_updated (JS_GetPropertyStr heap seed (c_lit "body")) res.body
          (http_res_set heap res (seed :: rest)).2.body ∧
        js_field_updated (JS_GetPropertyStr heap seed (c_lit "headers")) res.headers
          (http_res_set heap res (seed :: rest)).2.headers) :=
  ⟨http_req_set_fields heap req seed rest, http_res_set_fields heap res seed rest⟩

theorem set_updates_present_fields_only_witness :
    (http_req_set (fun _ => [(c_lit "uri", .string [47]), (c_lit "headers", .object 9)])
        { method := some [71], uri := none, body := none, params := .object 4,
          headers := .undefined } [.object 1]).2 =
      { method := some [71], uri := some [47], body := none, params := .object 4,
        headers := .object 9 } ∧
    js_field_updated
      (JS_GetPropertyStr (fun _ => [(c_lit "uri", .string [47]), (c_lit "headers", .object 9)])
        (.object 1) (c_lit "headers")) .undefined
      (http_req_set (fun _ => [(c_lit "uri", .string [47]), (c_lit "headers", .object 9)])
        { method := some [71], uri := none, body := none, params := .object 4,
          headers := .undefined } [.object 1]).2.headers ∧
    status_updated
      (JS_GetPropertyStr (fun _ => [(c_lit "uri", .string [47]), (c_lit "headers", .object 9)])
        (.object 1) (c_lit "status")) 404
      (http_res_set (fun _ => [(c_lit "uri", .string [47]), (c_lit "headers", .object 9)])
        { status := 404, reason := none, body := none, headers := .undefined }
        [.object 1]).2.status :=
  ⟨by decide,
    ((set_updates_present_fields_only
      (fun _ => [(c_lit "uri", .string [47]), (c_lit "headers", .object 9)])
      { method := some [71], uri := none, body := none, params := .object 4,
        headers := .undefined }
      { status := 404, reason := none, body := none, headers := .undefined }
      (.object 1) []).1 (by decide)).2.2.2.2,
    ((set_updates_present_fields_only
      (fun _ => [(c_lit "uri", .string [47]), (c_lit "headers", .object 9)])
      { method := some [71], uri := none, body := none, params := .object 4,
        headers := .undefined }
      { status := 404, reason := none, body := none, headers := .undefined }
      (.object 1) []).2 (by decide)).1⟩

/-! ## The claim on `http_server_on` -/

theorem js_realloc_array_full {α : Type} (fill : α) (old : List α) :
    js_realloc_array fill old (old.length + 1) = old ++ [fill] := by
  unfold js_realloc_array
  rw [List.take_append_eq_append_take]
  simp [List.take_replicate]

/-- One call of `http_server_on` with a handler that is a function, on a server whose
length fields are the lengths of its arrays: one handler and one record are appended. -/
theorem http_server_on_appends (rc : Int) (server : http_server) (this_val path : JSValue)
    (h : Nat) (h1 : server.callbacks_len = server.callbacks.length)
    (h2 : server.cbs_len = server.cbs.length) :
    (http_server_on rc server this_val [path, .function h]).2 =
      { callbacks := server.callbacks ++ [.function h],
        callbacks_len := server.callbacks.length + 1,
        cbs := server.cbs ++ [{ server_this := this_val,
                                callback_index := server.callbacks.length }],
        cbs_len := server.cbs.length + 1 } := by
  have e1 : (js_realloc_array JSValue.undefined server.callbacks
      (server.callbacks.length + 1)).set server.callbacks.length (.function h) =
      server.callbacks ++ [.function h] := by
    rw [js_realloc_array_full, List.set_append_right _ _ (Nat.le_refl _)]
    simp
  have e2 : ∀ rec : http_server_cb,
      (js_realloc_array (http_server_cb.mk JSValue.undefined 0) server.cbs
        (server.cbs.length + 1)).set server.cbs.length rec = server.cbs ++ [rec] := by
    intro rec
    rw [js_realloc_array_full, List.set_append_right _ _ (Nat.le_refl _)]
    simp
  unfold http_server_on
  simp only [JS_IsFunction, Bool.not_true, Bool.false_eq_true, if_false, h1, h2, e1, e2,
    Nat.add_sub_cancel]
  split <;> rfl

/-- The state after a sequence of valid `on` calls, from any state whose length fields are
the lengths of its arrays. -/
theorem http_server_on_calls_from (this_val : JSValue) :
    ∀ (calls : List (Int × JSValue × Nat)) (server : http_server),
    server.callbacks_len = server.callbacks.length →
    server.cbs_len = server.cbs.length →
    server.callbacks.length = server.cbs.length →
    http_server_on_calls this_val calls server =
      { callbacks := server.callbacks ++ calls.map (fun c => JSValue.function c.2.2),
        callbacks_len := server.callbacks.length + calls.length,
        cbs := server.cbs ++ (List.range calls.length).map
          (fun i => { server_this := this_val,
                      callback_index := server.callbacks.length + i }),
        cbs_len := server.cbs.length + calls.length } := by
  intro calls
  induction calls with
  | nil =>
    intro server h1 h2 _
    cases server
    simp_all [http_server_on_calls]
  | cons c calls ih =>
    intro server h1 h2 h3
    rw [http_server_on_calls, http_server_on_appends c.1 server this_val c.2.1 c.2.2 h1 h2]
    rw [ih _ (by simp) (by simp) (by simp [h3])]
    simp only [List.length_append, List.length_singleton, List.append_assoc, List.map_cons,
      List.singleton_append, List.length_cons, List.length_nil, List.range_succ_eq_map,
      List.map_map, http_server.mk.injEq]
    refine ⟨trivial, by omega, ?_, by omega⟩
    congr 1
    simp only [List.cons.injEq, Nat.add_zero, true_and]
    apply List.map_congr_left
    intro i _
    simp only [Function.comp, http_server_cb.mk.injEq, true_and]
    omega

/-- C19. For every sequence of `on(path, handler)` calls with valid arguments on one
server, whatever the listener answers to each: after the calls the registry holds their
handlers in order, `callbacks_len = cbs_len` is their number and record `i` has
`callback_index = i`; and one more call appends exactly its handler to the registry and
one record whose `callback_index` is the position of that handler, the earlier entries
and records staying as they were. -/
theorem http_server_on_registry (this_val : JSValue) (calls : List (Int × JSValue × Nat))
    (rc : Int) (path : JSValue) (h : Nat) :
    (http_server_on_calls this_val calls http_server_ctor).callbacks =
        calls.map (fun c => JSValue.function c.2.2) ∧
      (http_server_on_calls this_val calls http_server_ctor).callbacks_len = calls.length ∧
      (http_server_on_calls this_val calls http_server_ctor).cbs_len = calls.length ∧
      (http_server_on_calls this_val calls http_server_ctor).cbs =
        (List.range calls.length).map
          (fun i => { server_this := this_val, callback_index := i }) ∧
      (http_server_on rc (http_server_on_calls this_val calls http_server_ctor) this_val
          [path, .function h]).2.callbacks =
        (http_server_on_calls this_val calls http_server_ctor).callbacks ++ [.function h] ∧
      (http_server_on rc (http_server_on_calls this_val calls http_server_ctor) this_val
          [path, .function h]).2.cbs =
        (http_server_on_calls this_val calls http_server_ctor).cbs ++
          [{ server_this := this_val, callback_index := calls.length }] ∧
      (http_server_on rc (http_server_on_calls this_val calls http_server_ctor) this_val
          [path, .function h]).2.callbacks_len = calls.length + 1 ∧
      (http_server_on rc (http_server_on_calls this_val calls http_server_ctor) this_val
          [path, .function h]).2.cbs_len = calls.length + 1 := by
  have hs := http_server_on_calls_from this_val calls http_server_ctor rfl rfl rfl
  simp only [http_server_ctor, List.nil_append, List.length_nil, Nat.zero_add] at hs
  have hstep := http_server_on_appends rc
    (http_server_on_calls this_val calls http_server_ctor) this_val path h
    (by simp [http_server_ctor, hs]) (by simp [http_server_ctor, hs])
  simp only [http_server_ctor] at hstep ⊢
  rw [hstep, hs]
  simp

/-! ## The claim on the cursor of `headers_to_obj` -/

/-- C20 fails in the code. On the block `a:b\r` (length 4, zero byte at offset 4) the loop
finds the `\r` at offset 3 and moves the cursor two bytes on, to offset 5, past the zero
byte, and goes on reading there: with `x:y\r\n` behind the zero byte the cursor goes on
to offset 10 and the object returned has the pair `x -> y` of that memory. -/
theorem headers_to_obj_cursor_past_end :
    ([97, 58, 98, 13] : List Nat).length = 4 ∧
      headers_to_obj_cursors ([97, 58, 98, 13] ++ 0 :: [120, 58, 121, 13, 10, 0]) 12 0 =
        [0, 5, 10] ∧
      headers_to_obj (some ([97, 58, 98, 13] ++ 0 :: [120, 58, 121, 13, 10, 0])) =
        some (string_map [([97], [98]), ([120], [121])]) := by
  decide

end Http
